import Mathlib

/-!
Shallow embedding of src/src/settings/services/servicessettingspage.cpp
(the Dolphin "Services" settings panel).

Modelling choices:
  * Strings are Lean strings; QString::startsWith is embedded as a
    character-list test (case sensitive, as in Qt by default).
  * The three KConfig groups touched by the page are embedded as explicit
    pure state: the "Show" group of kservicemenurc as an association list,
    the ShowDeleteCommand entry of the KDE group of kdeglobals as an
    Option Bool (none = entry absent, so reads fall back to the default),
    GeneralSettings::showCopyMoveMenu as a Bool and
    VersionControlSettings::enabledPlugins as a list of strings.
  * The plugin registries queried by the page (KServiceTypeTrader and
    KPluginLoader) are embedded as an explicit environment value.
  * The QSortFilterProxyModel through which applySettings and
    restoreDefaults iterate is embedded as the label-sorted view of the
    source-model row list, with an empty search filter; the locale-aware
    collation of the proxy and the std::sort order used on the baseline
    snapshot are both modelled by the standard order on strings.
  * KMessageBox::information with a dontShowAgain identifier is embedded
    as an Option String result: some id when the call is made.
-/

namespace Dolphin

/-- The constant ShowDeleteDefault of the anonymous namespace. -/
def ShowDeleteDefault : Bool := false

/-- The constant VersionControlServicePrefix of the anonymous namespace
(renamed, the value is the C++ literal). -/
def VersionControlServiceMarker : String := "_version_control_"

/-- The constant DeleteService of the anonymous namespace. -/
def DeleteService : String := "_delete"

/-- The constant CopyToMoveToService of the anonymous namespace. -/
def CopyToMoveToService : String := "_copy_to_move_to"

/-- Character-list embedding of QString::startsWith: does the first list
start with the second? -/
def charsStartWith : List Char → List Char → Bool
  | _, [] => true
  | [], _ :: _ => false
  | c :: cs, p :: ps => c == p && charsStartWith cs ps

/-- Embedding of service.startsWith(pat) on QStrings. -/
def strStartsWith (s pat : String) : Bool :=
  charsStartWith s.data pat.data

/-- One row of the ServiceModel: icon (DecorationRole), label
(DisplayRole), key (DesktopEntryNameRole) and checked (CheckStateRole). -/
structure ServiceRow where
  icon : String
  label : String
  key : String
  checked : Bool
deriving DecidableEq, Repr

/-- The category a key routes to in applySettings / restoreDefaults,
derived from the key exactly as the if-chains of the source derive it. -/
inductive Category where
  | VersionControl
  | DeleteCommand
  | CopyMoveCommand
  | Generic
deriving DecidableEq, Repr

/-- Key-derived routing category (not stored on the row). -/
def category (key : String) : Category :=
  if strStartsWith key VersionControlServiceMarker then Category.VersionControl
  else if key == DeleteService then Category.DeleteCommand
  else if key == CopyToMoveToService then Category.CopyMoveCommand
  else Category.Generic

/-- The persistent configuration touched by the page: the Show group of
kservicemenurc, ShowDeleteCommand of kdeglobals (none when the entry is
absent), GeneralSettings::showCopyMoveMenu, and
VersionControlSettings::enabledPlugins. -/
structure ConfigState where
  showGroup : List (String × Bool)
  showDeleteCommand : Option Bool
  showCopyMoveMenu : Bool
  enabledVcsPlugins : List String
deriving DecidableEq, Repr

/-- KConfigGroup::writeEntry on the association-list embedding of a
config group: replace the entry if the key is present, else append it. -/
def writeEntry : List (String × Bool) → String → Bool → List (String × Bool)
  | [], k, v => [(k, v)]
  | (k', v') :: rest, k, v =>
      if k' == k then (k, v) :: rest else (k', v') :: writeEntry rest k v

/-- KConfigGroup::readEntry with a Bool default on the association-list
embedding of a config group. -/
def readShowEntry (g : List (String × Bool)) (key : String) (dflt : Bool) : Bool :=
  match g.lookup key with
  | some b => b
  | none => dflt

/-- A user-defined KServiceAction of a KonqPopupMenu/Plugin desktop file. -/
structure KServiceAction where
  name : String
  text : String
  icon : String
  noDisplay : Bool
  isSeparator : Bool
deriving DecidableEq, Repr

/-- One KonqPopupMenu/Plugin service: its optional X-KDE-Submenu name
(empty string when absent, as for QString) and its user-defined actions. -/
structure GenericService where
  subMenuName : String
  actions : List KServiceAction
deriving DecidableEq, Repr

/-- A KFileItemAction/Plugin entry (desktop-based or JSON-based): its
desktop entry name / plugin id, display name and icon. -/
structure PluginEntry where
  entryName : String
  name : String
  icon : String
deriving DecidableEq, Repr

/-- The plugin registries the page queries: the KonqPopupMenu/Plugin
query, the KFileItemAction/Plugin service query, the JSON
kf5/kfileitemaction plugins, the dolphin/vcs KPluginLoader plugins
(by name) and the FileViewVersionControlPlugin service query (by name). -/
structure Env where
  konqPopupServices : List GenericService
  fileItemActionServices : List PluginEntry
  jsonPlugins : List PluginEntry
  vcsPlugins : List String
  vcsServices : List String
deriving DecidableEq, Repr

/-- In-memory state of the page: the m_initialized flag, the source-model
rows (ServiceModel::insertRow(0) prepends, so the head is the most
recently added row), and the m_enabledVcsPlugins baseline snapshot. -/
structure PanelState where
  initialized : Bool
  rows : List ServiceRow
  enabledVcsBaseline : List String
deriving DecidableEq, Repr

/-- Page state together with the configuration it reads and writes. -/
structure AppState where
  panel : PanelState
  cfg : ConfigState
deriving DecidableEq, Repr

/-- Lexicographic comparison of character lists, the embedding of
operator< / operator<= on QStrings (and of the locale-aware collation of
the proxy, which this model identifies with the plain string order). -/
def charsLe : List Char → List Char → Bool
  | [], _ => true
  | _ :: _, [] => false
  | a :: as, b :: bs => a < b || (a == b && charsLe as bs)

/-- Order on strings used to embed both std::sort on a QStringList and
the proxy model's ascending sort. -/
def strLe (a b : String) : Prop := charsLe a.data b.data = true

instance : DecidableRel strLe := fun a b =>
  inferInstanceAs (Decidable (charsLe a.data b.data = true))

/-- Transitivity of the character-list comparison. -/
theorem charsLe_trans : ∀ (as bs cs : List Char),
    charsLe as bs = true → charsLe bs cs = true → charsLe as cs = true
  | [], _, _, _, _ => rfl
  | _ :: _, [], _, h, _ => by simp [charsLe] at h
  | _ :: _, _ :: _, [], _, h => by simp [charsLe] at h
  | a :: as, b :: bs, c :: cs, h1, h2 => by
    simp only [charsLe, Bool.or_eq_true, Bool.and_eq_true, beq_iff_eq,
      decide_eq_true_eq] at h1 h2 ⊢
    rcases h1 with h1 | ⟨rfl, h1⟩
    · rcases h2 with h2 | ⟨rfl, h2⟩
      · exact Or.inl (lt_trans h1 h2)
      · exact Or.inl h1
    · rcases h2 with h2 | ⟨rfl, h2⟩
      · exact Or.inl h2
      · exact Or.inr ⟨rfl, charsLe_trans as bs cs h1 h2⟩

/-- Totality of the character-list comparison. -/
theorem charsLe_total : ∀ (as bs : List Char),
    charsLe as bs = true ∨ charsLe bs as = true
  | [], _ => Or.inl rfl
  | _ :: _, [] => Or.inr rfl
  | a :: as, b :: bs => by
    simp only [charsLe, Bool.or_eq_true, Bool.and_eq_true, beq_iff_eq,
      decide_eq_true_eq]
    rcases lt_trichotomy a b with h | rfl | h
    · exact Or.inl (Or.inl h)
    · rcases charsLe_total as bs with h | h
      · exact Or.inl (Or.inr ⟨rfl, h⟩)
      · exact Or.inr (Or.inr ⟨rfl, h⟩)
    · exact Or.inr (Or.inl h)

instance : IsTrans String strLe :=
  ⟨fun _ _ _ h1 h2 => charsLe_trans _ _ _ h1 h2⟩

instance : IsTotal String strLe :=
  ⟨fun a b => charsLe_total a.data b.data⟩

/-- Sorting a QStringList with std::sort (as in the constructor). The
model sorts stably; std::sort fixes no tie order, and all uses here are
insensitive to it. -/
def sortStrings (l : List String) : List String := l.insertionSort strLe

/-- Label comparison backing the QSortFilterProxyModel sort on
Qt::DisplayRole. -/
def rowLe (a b : ServiceRow) : Prop := strLe a.label b.label

instance : DecidableRel rowLe := fun a b =>
  inferInstanceAs (Decidable (strLe a.label b.label))

instance : IsTrans ServiceRow rowLe :=
  ⟨fun _ _ _ h1 h2 => charsLe_trans _ _ _ h1 h2⟩

instance : IsTotal ServiceRow rowLe :=
  ⟨fun _ _ => charsLe_total _ _⟩

/-- The rows as seen through m_sortModel: sorted by label, empty filter.
applySettings and restoreDefaults iterate this view. -/
def viewRows (p : PanelState) : List ServiceRow := p.rows.insertionSort rowLe

/-- ServicesSettingsPage::addRow: insertRow(0) plus the four setData
calls, i.e. prepending a fully populated row. -/
def addRow (rows : List ServiceRow) (icon text value : String) (checked : Bool) :
    List ServiceRow :=
  { icon := icon, label := text, key := value, checked := checked } :: rows

/-- ServicesSettingsPage::isInServicesList: linear scan of the source
model for a row whose DesktopEntryNameRole equals the argument. -/
def isInServicesList (rows : List ServiceRow) (service : String) : Bool :=
  rows.any (fun r => r.key == service)

/-- The keys of a row list, in order. -/
def rowKeys (rows : List ServiceRow) : List String := rows.map (fun r => r.key)

/-- Body of the inner loop of the first source of loadServices: one
KServiceAction of one KonqPopupMenu/Plugin service. -/
def serviceActionStep (showGroup : List (String × Bool)) (subMenuName : String)
    (rows : List ServiceRow) (action : KServiceAction) : List ServiceRow :=
  if !action.noDisplay && !action.isSeparator && !(isInServicesList rows action.name) then
    addRow rows action.icon
      (if subMenuName.isEmpty then action.text
       else subMenuName ++ ": " ++ action.text)
      action.name (readShowEntry showGroup action.name true)
  else
    rows

/-- Body of the outer loop of the first source of loadServices: all
user-defined actions of one service. -/
def genericServiceStep (showGroup : List (String × Bool))
    (rows : List ServiceRow) (svc : GenericService) : List ServiceRow :=
  svc.actions.foldl (serviceActionStep showGroup svc.subMenuName) rows

/-- Body of the loops of the second and third sources of loadServices:
one KFileItemAction/Plugin entry, guarded by isInServicesList. -/
def pluginEntryStep (showGroup : List (String × Bool))
    (rows : List ServiceRow) (p : PluginEntry) : List ServiceRow :=
  if !(isInServicesList rows p.entryName) then
    addRow rows p.icon p.name p.entryName (readShowEntry showGroup p.entryName true)
  else
    rows

/-- ServicesSettingsPage::loadServices: the three generic sources, in
source order. (The trailing proxy re-sort and search-box focus are view
concerns; the source model is the row list.) -/
def loadServices (env : Env) (cfg : ConfigState) (rows : List ServiceRow) :
    List ServiceRow :=
  let r1 := env.konqPopupServices.foldl (genericServiceStep cfg.showGroup) rows
  let r2 := env.fileItemActionServices.foldl (pluginEntryStep cfg.showGroup) r1
  env.jsonPlugins.foldl (pluginEntryStep cfg.showGroup) r2

/-- Body of the first loop of loadVersionControlSystems: add a row for
the plugin and record its name in loadedPlugins. -/
def loadVcsPluginStep (enabled : List String)
    (acc : List ServiceRow × List String) (pluginName : String) :
    List ServiceRow × List String :=
  (addRow acc.1 "code-class" pluginName (VersionControlServiceMarker ++ pluginName)
      (enabled.contains pluginName),
   acc.2 ++ [pluginName])

/-- Body of the second loop of loadVersionControlSystems: skip names
already in loadedPlugins, else add a row. -/
def loadVcsServiceStep (enabled loadedPlugins : List String)
    (rows : List ServiceRow) (pluginName : String) : List ServiceRow :=
  if loadedPlugins.contains pluginName then
    rows
  else
    addRow rows "code-class" pluginName (VersionControlServiceMarker ++ pluginName)
      (enabled.contains pluginName)

/-- ServicesSettingsPage::loadVersionControlSystems: enabledPlugins is
re-read from VersionControlSettings, then the two plugin sources run in
order. -/
def loadVersionControlSystems (env : Env) (cfg : ConfigState)
    (rows : List ServiceRow) : List ServiceRow :=
  let enabledPlugins := cfg.enabledVcsPlugins
  let p := env.vcsPlugins.foldl (loadVcsPluginStep enabledPlugins) (rows, [])
  env.vcsServices.foldl (loadVcsServiceStep enabledPlugins p.2) p.1

/-- ServicesSettingsPage::showEvent: on a non-spontaneous event of a not
yet initialized page, load the generic services, the version control
systems and the two synthetic rows, then mark the page initialized.
(The m_sortModel sort only affects the view.) -/
def showEvent (env : Env) (spontaneous : Bool) (s : AppState) : AppState :=
  if !spontaneous && !s.panel.initialized then
    let rows := loadServices env s.cfg s.panel.rows
    let rows := loadVersionControlSystems env s.cfg rows
    let rows := addRow rows "edit-delete" "Delete" DeleteService
        (s.cfg.showDeleteCommand.getD ShowDeleteDefault)
    let rows := addRow rows "edit-copy" "'Copy To' and 'Move To' commands"
        CopyToMoveToService s.cfg.showCopyMoveMenu
    { s with panel := { s.panel with rows := rows, initialized := true } }
  else
    s

/-- The member-initializer list plus the constructor-body snapshot: rows
empty, not initialized, m_enabledVcsPlugins = std::sort of
VersionControlSettings::enabledPlugins(). -/
def mkPanel (cfg : ConfigState) : PanelState :=
  { initialized := false
    rows := []
    enabledVcsBaseline := sortStrings cfg.enabledVcsPlugins }

/-- A freshly constructed page over a configuration. -/
def mkAppState (cfg : ConfigState) : AppState :=
  { panel := mkPanel cfg, cfg := cfg }

/-- Construction followed by the first real display event. -/
def initializePanel (env : Env) (cfg : ConfigState) : AppState :=
  showEvent env false (mkAppState cfg)

/-- Body of the row loop of applySettings: route one row of the view by
its key, threading the config state and the collected enabledPlugins. -/
def applyStep (acc : ConfigState × List String) (row : ServiceRow) :
    ConfigState × List String :=
  if strStartsWith row.key VersionControlServiceMarker then
    (acc.1, if row.checked then acc.2 ++ [row.label] else acc.2)
  else if row.key == DeleteService then
    ({ acc.1 with showDeleteCommand := some row.checked }, acc.2)
  else if row.key == CopyToMoveToService then
    ({ acc.1 with showCopyMoveMenu := row.checked }, acc.2)
  else
    ({ acc.1 with showGroup := writeEntry acc.1.showGroup row.key row.checked }, acc.2)

/-- ServicesSettingsPage::applySettings: early return when not
initialized; otherwise route every row of the view, then, when the
collected enabledPlugins list differs from m_enabledVcsPlugins, persist
it and request the restart notice with its dontShowAgain identifier. -/
def applySettings (s : AppState) : AppState × Option String :=
  if !s.panel.initialized then
    (s, none)
  else
    let res := (viewRows s.panel).foldl applyStep (s.cfg, [])
    let enabledPlugins := res.2
    if s.panel.enabledVcsBaseline ≠ enabledPlugins then
      ({ s with cfg := { res.1 with enabledVcsPlugins := enabledPlugins } },
       some "ShowVcsRestartInformation")
    else
      ({ s with cfg := res.1 }, none)

/-- ServicesSettingsPage::restoreDefaults: for every row of the view,
set checked to true exactly when the key carries none of the three
reserved markers. setData goes through the proxy to the source model, so
with an empty filter this updates every source row. -/
def restoreDefaults (s : AppState) : AppState :=
  { s with panel :=
      { s.panel with rows := s.panel.rows.map (fun r =>
          { r with checked :=
              !(strStartsWith r.key VersionControlServiceMarker)
              && !(r.key == DeleteService)
              && !(r.key == CopyToMoveToService) }) } }

/-- The KNS3::Button dialogFinished handler: when the changed-entries
list is non-empty, clear the source model and run loadServices again;
m_initialized is left untouched. -/
def reloadAfterDownload (env : Env) (changedEntries : List String)
    (s : AppState) : AppState :=
  if changedEntries.isEmpty then
    s
  else
    { s with panel := { s.panel with rows := loadServices env s.cfg [] } }

/-- The labels of the checked version-control rows of a row list, in
order: what the applySettings loop collects into enabledPlugins. -/
def checkedVcsLabels (rows : List ServiceRow) : List String :=
  (rows.filter (fun r =>
    strStartsWith r.key VersionControlServiceMarker && r.checked)).map (fun r => r.label)

/-- All candidate keys the three generic sources can contribute. -/
def genericKeys (env : Env) : List String :=
  (env.konqPopupServices.map (fun s => s.actions.map (fun a => a.name))).flatten
    ++ env.fileItemActionServices.map (fun p => p.entryName)
    ++ env.jsonPlugins.map (fun p => p.entryName)

/-! ### Store lemmas -/

/-- Reading back the key just written. -/
theorem lookup_writeEntry_self (g : List (String × Bool)) (k : String) (v : Bool) :
    (writeEntry g k v).lookup k = some v := by
  induction g with
  | nil => simp [writeEntry, List.lookup]
  | cons p rest ih =>
    obtain ⟨k', v'⟩ := p
    by_cases h : k' = k
    · subst h
      simp [writeEntry, List.lookup]
    · have hb : (k' == k) = false := beq_eq_false_iff_ne.mpr h
      have hb2 : (k == k') = false := beq_eq_false_iff_ne.mpr (Ne.symm h)
      simp [writeEntry, List.lookup, hb, hb2, ih]

/-- Writing one key leaves the others unchanged. -/
theorem lookup_writeEntry_other (g : List (String × Bool)) (k' k : String)
    (v : Bool) (h : k' ≠ k) :
    (writeEntry g k' v).lookup k = g.lookup k := by
  have hkk : (k == k') = false := beq_eq_false_iff_ne.mpr (Ne.symm h)
  induction g with
  | nil => simp [writeEntry, List.lookup, hkk]
  | cons p rest ih =>
    obtain ⟨k₀, v₀⟩ := p
    by_cases h0 : k₀ = k'
    · subst h0
      simp [writeEntry, List.lookup, hkk]
    · have hb : (k₀ == k') = false := beq_eq_false_iff_ne.mpr h0
      by_cases h1 : k = k₀
      · subst h1
        simp [writeEntry, List.lookup, hb]
      · have hb1 : (k == k₀) = false := beq_eq_false_iff_ne.mpr h1
        simp [writeEntry, List.lookup, hb, hb1, ih]

/-! ### Category lemmas -/

/-- The delete sentinel does not carry the version-control marker. -/
theorem deleteService_not_vcs :
    strStartsWith DeleteService VersionControlServiceMarker = false := by decide

/-- The copy/move sentinel does not carry the version-control marker. -/
theorem copyService_not_vcs :
    strStartsWith CopyToMoveToService VersionControlServiceMarker = false := by decide

/-- The two sentinel keys differ. -/
theorem copy_ne_delete : CopyToMoveToService ≠ DeleteService := by decide

/-- Characterization of the Generic category. -/
theorem category_generic_iff (k : String) :
    category k = Category.Generic ↔
      strStartsWith k VersionControlServiceMarker = false
        ∧ k ≠ DeleteService ∧ k ≠ CopyToMoveToService := by
  unfold category
  rcases h1 : strStartsWith k VersionControlServiceMarker with _ | _ <;>
    by_cases h2 : k = DeleteService <;>
    by_cases h3 : k = CopyToMoveToService <;>
    simp [h1, h2, h3, copy_ne_delete]

/-- Characterization of the VersionControl category. -/
theorem category_vcs_iff (k : String) :
    category k = Category.VersionControl ↔
      strStartsWith k VersionControlServiceMarker = true := by
  unfold category
  rcases h1 : strStartsWith k VersionControlServiceMarker with _ | _ <;>
    by_cases h2 : k = DeleteService <;>
    by_cases h3 : k = CopyToMoveToService <;>
    simp [h1, h2, h3, copy_ne_delete]

/-- Characterization of the DeleteCommand category. -/
theorem category_delete_iff (k : String) :
    category k = Category.DeleteCommand ↔
      strStartsWith k VersionControlServiceMarker = false ∧ k = DeleteService := by
  unfold category
  rcases h1 : strStartsWith k VersionControlServiceMarker with _ | _ <;>
    by_cases h2 : k = DeleteService <;>
    by_cases h3 : k = CopyToMoveToService <;>
    simp [h1, h2, h3, copy_ne_delete]

/-- Characterization of the CopyMoveCommand category. -/
theorem category_copy_iff (k : String) :
    category k = Category.CopyMoveCommand ↔
      strStartsWith k VersionControlServiceMarker = false
        ∧ k ≠ DeleteService ∧ k = CopyToMoveToService := by
  unfold category
  rcases h1 : strStartsWith k VersionControlServiceMarker with _ | _ <;>
    by_cases h2 : k = DeleteService <;>
    by_cases h3 : k = CopyToMoveToService <;>
    simp [h1, h2, h3, copy_ne_delete]

/-! ### applySettings loop lemmas -/

/-- The collected enabledPlugins of the loop of applySettings are
exactly the labels of the checked version-control rows, in row order. -/
theorem applyFold_snd (rows : List ServiceRow) :
    ∀ (cfg : ConfigState) (acc : List String),
    (rows.foldl applyStep (cfg, acc)).2 = acc ++ checkedVcsLabels rows := by
  induction rows with
  | nil => intro cfg acc; simp [checkedVcsLabels]
  | cons r rest ih =>
    intro cfg acc
    simp only [List.foldl_cons]
    by_cases h1 : strStartsWith r.key VersionControlServiceMarker = true
    · by_cases hc : r.checked = true
      · simp [applyStep, deleteService_not_vcs, copyService_not_vcs, copy_ne_delete, h1, hc, ih, checkedVcsLabels, List.filter_cons]
      · simp [applyStep, deleteService_not_vcs, copyService_not_vcs, copy_ne_delete, h1, hc, ih, checkedVcsLabels, List.filter_cons,
          Bool.eq_false_iff.mpr hc]
    · have h1f : strStartsWith r.key VersionControlServiceMarker = false :=
        Bool.eq_false_iff.mpr h1
      by_cases h2 : r.key = DeleteService
      · simp [applyStep, deleteService_not_vcs, copyService_not_vcs, copy_ne_delete, h1f, h2, ih, checkedVcsLabels, List.filter_cons]
      · by_cases h3 : r.key = CopyToMoveToService
        · simp [applyStep, deleteService_not_vcs, copyService_not_vcs, copy_ne_delete, h1f, h2, h3, ih, checkedVcsLabels, List.filter_cons]
        · simp [applyStep, deleteService_not_vcs, copyService_not_vcs, copy_ne_delete, h1f, h2, h3, ih, checkedVcsLabels, List.filter_cons]

/-- The loop of applySettings never touches the version-control settings
store. -/
theorem applyFold_enabledVcs (rows : List ServiceRow) :
    ∀ (cfg : ConfigState) (acc : List String),
    (rows.foldl applyStep (cfg, acc)).1.enabledVcsPlugins = cfg.enabledVcsPlugins := by
  induction rows with
  | nil => intro cfg acc; rfl
  | cons r rest ih =>
    intro cfg acc
    simp only [List.foldl_cons]
    by_cases h1 : strStartsWith r.key VersionControlServiceMarker = true
    · simp [applyStep, deleteService_not_vcs, copyService_not_vcs, copy_ne_delete, h1, ih]
    · have h1f : strStartsWith r.key VersionControlServiceMarker = false :=
        Bool.eq_false_iff.mpr h1
      by_cases h2 : r.key = DeleteService
      · simp [applyStep, deleteService_not_vcs, copyService_not_vcs, copy_ne_delete, h1f, h2, ih]
      · by_cases h3 : r.key = CopyToMoveToService
        · simp [applyStep, deleteService_not_vcs, copyService_not_vcs, copy_ne_delete, h1f, h2, h3, ih]
        · simp [applyStep, deleteService_not_vcs, copyService_not_vcs, copy_ne_delete, h1f, h2, h3, ih]

/-- If no row carries the delete sentinel, the loop leaves the
ShowDeleteCommand entry unchanged. -/
theorem applyFold_delete_preserve (rows : List ServiceRow) :
    ∀ (cfg : ConfigState) (acc : List String),
    (∀ r ∈ rows, r.key ≠ DeleteService) →
    (rows.foldl applyStep (cfg, acc)).1.showDeleteCommand = cfg.showDeleteCommand := by
  induction rows with
  | nil => intro cfg acc _; rfl
  | cons r rest ih =>
    intro cfg acc h
    have hr : r.key ≠ DeleteService := h r (List.mem_cons_self r rest)
    have hrest : ∀ r' ∈ rest, r'.key ≠ DeleteService :=
      fun r' hr' => h r' (List.mem_cons_of_mem r hr')
    simp only [List.foldl_cons]
    by_cases h1 : strStartsWith r.key VersionControlServiceMarker = true
    · simp [applyStep, deleteService_not_vcs, copyService_not_vcs, copy_ne_delete, h1, ih _ _ hrest]
    · have h1f : strStartsWith r.key VersionControlServiceMarker = false :=
        Bool.eq_false_iff.mpr h1
      by_cases h3 : r.key = CopyToMoveToService
      · simp [applyStep, deleteService_not_vcs, copyService_not_vcs, copy_ne_delete, h1f, hr, h3, ih _ _ hrest]
      · simp [applyStep, deleteService_not_vcs, copyService_not_vcs, copy_ne_delete, h1f, hr, h3, ih _ _ hrest]

/-- If no row carries the copy/move sentinel, the loop leaves the
showCopyMoveMenu setting unchanged. -/
theorem applyFold_copy_preserve (rows : List ServiceRow) :
    ∀ (cfg : ConfigState) (acc : List String),
    (∀ r ∈ rows, r.key ≠ CopyToMoveToService) →
    (rows.foldl applyStep (cfg, acc)).1.showCopyMoveMenu = cfg.showCopyMoveMenu := by
  induction rows with
  | nil => intro cfg acc _; rfl
  | cons r rest ih =>
    intro cfg acc h
    have hr : r.key ≠ CopyToMoveToService := h r (List.mem_cons_self r rest)
    have hrest : ∀ r' ∈ rest, r'.key ≠ CopyToMoveToService :=
      fun r' hr' => h r' (List.mem_cons_of_mem r hr')
    simp only [List.foldl_cons]
    by_cases h1 : strStartsWith r.key VersionControlServiceMarker = true
    · simp [applyStep, deleteService_not_vcs, copyService_not_vcs, copy_ne_delete, h1, ih _ _ hrest]
    · have h1f : strStartsWith r.key VersionControlServiceMarker = false :=
        Bool.eq_false_iff.mpr h1
      by_cases h2 : r.key = DeleteService
      · simp [applyStep, deleteService_not_vcs, copyService_not_vcs, copy_ne_delete, h1f, hr, h2, ih _ _ hrest]
      · simp [applyStep, deleteService_not_vcs, copyService_not_vcs, copy_ne_delete, h1f, hr, h2, ih _ _ hrest]

/-- If no generic row has key k, the loop leaves the Show-group entry of
k unchanged. -/
theorem applyFold_show_preserve (rows : List ServiceRow) :
    ∀ (cfg : ConfigState) (acc : List String) (k : String),
    (∀ r ∈ rows, category r.key = Category.Generic → r.key ≠ k) →
    (rows.foldl applyStep (cfg, acc)).1.showGroup.lookup k = cfg.showGroup.lookup k := by
  induction rows with
  | nil => intro cfg acc k _; rfl
  | cons r rest ih =>
    intro cfg acc k h
    have hrest : ∀ r' ∈ rest, category r'.key = Category.Generic → r'.key ≠ k :=
      fun r' hr' => h r' (List.mem_cons_of_mem r hr')
    simp only [List.foldl_cons]
    by_cases h1 : strStartsWith r.key VersionControlServiceMarker = true
    · simp [applyStep, deleteService_not_vcs, copyService_not_vcs, copy_ne_delete, h1, ih _ _ _ hrest]
    · have h1f : strStartsWith r.key VersionControlServiceMarker = false :=
        Bool.eq_false_iff.mpr h1
      by_cases h2 : r.key = DeleteService
      · simp [applyStep, deleteService_not_vcs, copyService_not_vcs, copy_ne_delete, h1f, h2, ih _ _ _ hrest]
      · by_cases h3 : r.key = CopyToMoveToService
        · simp [applyStep, deleteService_not_vcs, copyService_not_vcs, copy_ne_delete, h1f, h2, h3, ih _ _ _ hrest]
        · have hgen : category r.key = Category.Generic :=
            (category_generic_iff r.key).mpr ⟨h1f, h2, h3⟩
          have hk : r.key ≠ k := h r (List.mem_cons_self r rest) hgen
          simp only [applyStep, h1f, h2, h3]
          simp only [Bool.false_eq_true, if_false,
            beq_eq_false_iff_ne.mpr h2, beq_eq_false_iff_ne.mpr h3]
          rw [ih _ _ _ hrest]
          simp [lookup_writeEntry_other _ _ _ _ hk]

/-- Effect of applyStep on a row carrying the delete sentinel. -/
theorem applyStep_delete (acc : ConfigState × List String) (r : ServiceRow)
    (h : r.key = DeleteService) :
    applyStep acc r = ({ acc.1 with showDeleteCommand := some r.checked }, acc.2) := by
  simp [applyStep, h, deleteService_not_vcs]

/-- Effect of applyStep on a row carrying the copy/move sentinel. -/
theorem applyStep_copy (acc : ConfigState × List String) (r : ServiceRow)
    (h : r.key = CopyToMoveToService) :
    applyStep acc r = ({ acc.1 with showCopyMoveMenu := r.checked }, acc.2) := by
  simp [applyStep, h, copyService_not_vcs, copy_ne_delete]

/-- Effect of applyStep on a generic row. -/
theorem applyStep_generic (acc : ConfigState × List String) (r : ServiceRow)
    (h : category r.key = Category.Generic) :
    applyStep acc r =
      ({ acc.1 with showGroup := writeEntry acc.1.showGroup r.key r.checked }, acc.2) := by
  obtain ⟨h1, h2, h3⟩ := (category_generic_iff r.key).mp h
  simp [applyStep, h1, h2, h3]

/-- A member of a list with duplicate-free keys splits the list so that
its key does not recur afterwards. -/
theorem nodup_key_split (rows : List ServiceRow) (r : ServiceRow)
    (hmem : r ∈ rows) (hnd : (rowKeys rows).Nodup) :
    ∃ l₁ l₂, rows = l₁ ++ r :: l₂ ∧ ∀ r' ∈ l₂, r'.key ≠ r.key := by
  obtain ⟨l₁, l₂, rfl⟩ := List.append_of_mem hmem
  refine ⟨l₁, l₂, rfl, ?_⟩
  have : (rowKeys l₁ ++ r.key :: rowKeys l₂).Nodup := by
    simpa [rowKeys] using hnd
  have hkey : r.key ∉ rowKeys l₂ := by
    have := (List.nodup_append.mp this).2.1
    exact (List.nodup_cons.mp this).1
  intro r' hr' hEq
  exact hkey (hEq ▸ List.mem_map_of_mem (fun q => q.key) hr')

/-- With duplicate-free keys, the loop ends with ShowDeleteCommand set to
the checked state of the delete row. -/
theorem applyFold_delete_set (rows : List ServiceRow) (cfg : ConfigState)
    (acc : List String) (r : ServiceRow) (hmem : r ∈ rows)
    (hnd : (rowKeys rows).Nodup) (hkey : r.key = DeleteService) :
    (rows.foldl applyStep (cfg, acc)).1.showDeleteCommand = some r.checked := by
  obtain ⟨l₁, l₂, rfl, hl₂⟩ := nodup_key_split rows r hmem hnd
  rw [List.foldl_append, List.foldl_cons, applyStep_delete _ _ hkey]
  exact applyFold_delete_preserve l₂ _ _ (fun r' hr' => hkey ▸ hl₂ r' hr')

/-- With duplicate-free keys, the loop ends with showCopyMoveMenu set to
the checked state of the copy/move row. -/
theorem applyFold_copy_set (rows : List ServiceRow) (cfg : ConfigState)
    (acc : List String) (r : ServiceRow) (hmem : r ∈ rows)
    (hnd : (rowKeys rows).Nodup) (hkey : r.key = CopyToMoveToService) :
    (rows.foldl applyStep (cfg, acc)).1.showCopyMoveMenu = r.checked := by
  obtain ⟨l₁, l₂, rfl, hl₂⟩ := nodup_key_split rows r hmem hnd
  rw [List.foldl_append, List.foldl_cons, applyStep_copy _ _ hkey]
  exact applyFold_copy_preserve l₂ _ _ (fun r' hr' => hkey ▸ hl₂ r' hr')

/-- With duplicate-free keys, the loop ends with the Show-group entry of
each generic row set to that row's checked state. -/
theorem applyFold_show_set (rows : List ServiceRow) (cfg : ConfigState)
    (acc : List String) (r : ServiceRow) (hmem : r ∈ rows)
    (hnd : (rowKeys rows).Nodup) (hcat : category r.key = Category.Generic) :
    (rows.foldl applyStep (cfg, acc)).1.showGroup.lookup r.key = some r.checked := by
  obtain ⟨l₁, l₂, rfl, hl₂⟩ := nodup_key_split rows r hmem hnd
  rw [List.foldl_append, List.foldl_cons, applyStep_generic _ _ hcat]
  rw [applyFold_show_preserve l₂ _ _ _ (fun r' hr' _ => hl₂ r' hr')]
  exact lookup_writeEntry_self _ _ _

/-- Unfolding of applySettings on an initialized page. -/
theorem applySettings_initialized (s : AppState)
    (h : s.panel.initialized = true) :
    applySettings s =
      if s.panel.enabledVcsBaseline ≠ ((viewRows s.panel).foldl applyStep (s.cfg, [])).2 then
        ({ s with cfg := { ((viewRows s.panel).foldl applyStep (s.cfg, [])).1 with
             enabledVcsPlugins := ((viewRows s.panel).foldl applyStep (s.cfg, [])).2 } },
         some "ShowVcsRestartInformation")
      else
        ({ s with cfg := ((viewRows s.panel).foldl applyStep (s.cfg, [])).1 }, none) := by
  simp [applySettings, h]

/-- The first component of applySettings on an initialized page differs
from the loop result in the enabledVcsPlugins field at most. -/
theorem applySettings_cfg_fields (s : AppState) (h : s.panel.initialized = true) :
    (applySettings s).1.cfg.showGroup
        = ((viewRows s.panel).foldl applyStep (s.cfg, [])).1.showGroup
    ∧ (applySettings s).1.cfg.showDeleteCommand
        = ((viewRows s.panel).foldl applyStep (s.cfg, [])).1.showDeleteCommand
    ∧ (applySettings s).1.cfg.showCopyMoveMenu
        = ((viewRows s.panel).foldl applyStep (s.cfg, [])).1.showCopyMoveMenu := by
  rw [applySettings_initialized s h]
  by_cases hd :
      s.panel.enabledVcsBaseline ≠ ((viewRows s.panel).foldl applyStep (s.cfg, [])).2 <;>
    simp [hd]

/-! ### Concrete demonstration data used by witnesses -/

/-- A small concrete configuration with Git enabled for version control. -/
def demoCfg : ConfigState :=
  { showGroup := []
    showDeleteCommand := none
    showCopyMoveMenu := true
    enabledVcsPlugins := ["Git"] }

/-- A small concrete plugin environment: one KonqPopupMenu service with
one action, one KFileItemAction service, one vcs plugin and one vcs
service. -/
def demoEnv : Env :=
  { konqPopupServices := [⟨"Sub", [⟨"svcA", "Alpha", "ic", false, false⟩]⟩]
    fileItemActionServices := [⟨"svcB", "Beta", "ib"⟩]
    jsonPlugins := []
    vcsPlugins := ["Git"]
    vcsServices := ["Hg"] }

/-- The demo page after construction and first display. -/
def demoState : AppState := initializePanel demoEnv demoCfg

/-! ### Claim theorems -/

/-- C1: applySettings is a no-op when the page is not yet initialized;
once initialized it routes every row of the view by its key-derived
category: each generic row's key/checked pair lands in the Show group
(and only generic rows write there), the delete sentinel row's checked
state lands in ShowDeleteCommand, the copy/move sentinel row's checked
state lands in showCopyMoveMenu, and the collected enabledPlugins list
is exactly the labels of the checked version-control rows (unchecked
ones contribute nothing and trigger no write). -/
theorem C1_apply_routing (s : AppState) :
    (s.panel.initialized = false → applySettings s = (s, none))
    ∧ (s.panel.initialized = true → (rowKeys (viewRows s.panel)).Nodup →
        (∀ r ∈ viewRows s.panel,
          (category r.key = Category.Generic →
            (applySettings s).1.cfg.showGroup.lookup r.key = some r.checked)
          ∧ (category r.key = Category.DeleteCommand →
            (applySettings s).1.cfg.showDeleteCommand = some r.checked)
          ∧ (category r.key = Category.CopyMoveCommand →
            (applySettings s).1.cfg.showCopyMoveMenu = r.checked))
        ∧ (∀ k : String,
            (∀ r ∈ viewRows s.panel, category r.key = Category.Generic → r.key ≠ k) →
            (applySettings s).1.cfg.showGroup.lookup k = s.cfg.showGroup.lookup k)
        ∧ ((viewRows s.panel).foldl applyStep (s.cfg, [])).2
            = checkedVcsLabels (viewRows s.panel)) := by
  constructor
  · intro h
    simp [applySettings, h]
  · intro hinit hnd
    obtain ⟨hshow, hdel, hcopy⟩ := applySettings_cfg_fields s hinit
    refine ⟨?_, ?_, ?_⟩
    · intro r hr
      refine ⟨?_, ?_, ?_⟩
      · intro hcat
        rw [hshow]
        exact applyFold_show_set _ _ _ r hr hnd hcat
      · intro hcat
        rw [hdel]
        exact applyFold_delete_set _ _ _ r hr hnd
          ((category_delete_iff r.key).mp hcat).2
      · intro hcat
        rw [hcopy]
        exact applyFold_copy_set _ _ _ r hr hnd
          ((category_copy_iff r.key).mp hcat).2.2
    · intro k hk
      rw [hshow]
      exact applyFold_show_preserve _ _ _ _ hk
    · simpa using applyFold_snd (viewRows s.panel) s.cfg []

/-- Witness for C1 at the demo state: the generic row svcA is written as
checked, the delete row writes false, the copy/move row writes true, and
the collected enabledPlugins are exactly the checked vcs labels. -/
theorem C1_apply_routing_witness :
    (applySettings demoState).1.cfg.showGroup.lookup "svcA" = some true
    ∧ (applySettings demoState).1.cfg.showDeleteCommand = some false
    ∧ (applySettings demoState).1.cfg.showCopyMoveMenu = true
    ∧ ((viewRows demoState.panel).foldl applyStep (demoState.cfg, [])).2
        = checkedVcsLabels (viewRows demoState.panel) := by
  have h := (C1_apply_routing demoState).2 (by decide) (by decide)
  refine ⟨?_, ?_, ?_, h.2.2⟩
  · have := (h.1 ⟨"ic", "Sub: Alpha", "svcA", true⟩ (by decide)).1 (by decide)
    simpa using this
  · have := (h.1 ⟨"edit-delete", "Delete", "_delete", false⟩ (by decide)).2.1 (by decide)
    simpa using this
  · have := (h.1 ⟨"edit-copy", "'Copy To' and 'Move To' commands", "_copy_to_move_to", true⟩
      (by decide)).2.2 (by decide)
    simpa using this

/-- The default checked state computed by restoreDefaults is true
exactly on generic keys. -/
theorem restore_checked_iff (k : String) :
    (!(strStartsWith k VersionControlServiceMarker)
      && !(k == DeleteService) && !(k == CopyToMoveToService)) = true
    ↔ category k = Category.Generic := by
  rw [category_generic_iff]
  rcases h1 : strStartsWith k VersionControlServiceMarker with _ | _ <;>
    by_cases h2 : k = DeleteService <;>
    by_cases h3 : k = CopyToMoveToService <;>
    simp [h1, h2, h3]

/-- C5: restoreDefaults sets checked to true on every generic row and to
false on every VersionControl, DeleteCommand or CopyMoveCommand row; it
keeps every row's icon, label and key, writes nothing to any persistent
store, and leaves the initialized flag alone (it is total, so it always
succeeds). -/
theorem C5_restore_defaults (s : AppState) :
    (restoreDefaults s).cfg = s.cfg
    ∧ (restoreDefaults s).panel.initialized = s.panel.initialized
    ∧ ((restoreDefaults s).panel.rows.map (fun r => (r.icon, r.label, r.key))
        = s.panel.rows.map (fun r => (r.icon, r.label, r.key)))
    ∧ ∀ r ∈ (restoreDefaults s).panel.rows,
        (category r.key = Category.Generic → r.checked = true)
        ∧ ((category r.key = Category.VersionControl
            ∨ category r.key = Category.DeleteCommand
            ∨ category r.key = Category.CopyMoveCommand) → r.checked = false) := by
  refine ⟨rfl, rfl, ?_, ?_⟩
  · simp [restoreDefaults]
  · intro r hr
    simp only [restoreDefaults, List.mem_map] at hr
    obtain ⟨r₀, _, rfl⟩ := hr
    constructor
    · intro hcat
      exact (restore_checked_iff r₀.key).mpr hcat
    · intro hcat
      rcases hb : (!(strStartsWith r₀.key VersionControlServiceMarker)
          && !(r₀.key == DeleteService) && !(r₀.key == CopyToMoveToService)) with _ | _
      · rfl
      · exfalso
        have := (restore_checked_iff r₀.key).mp hb
        rcases hcat with h | h | h <;> rw [this] at h <;> exact Category.noConfusion h

/-- C6: a non-spontaneous display event is idempotent: performing it
twice leaves the whole state (in particular the row collection)
identical to performing it once, and after the first one the page is
initialized. -/
theorem C6_initialize_idempotent (env : Env) (s : AppState) :
    showEvent env false (showEvent env false s) = showEvent env false s
    ∧ (showEvent env false s).panel.initialized = true := by
  by_cases h : s.panel.initialized = true
  · constructor
    · have h1 : showEvent env false s = s := by simp [showEvent, h]
      rw [h1, h1]
    · simp [showEvent, h]
  · have hf : s.panel.initialized = false := Bool.eq_false_iff.mpr h
    have h2 : (showEvent env false s).panel.initialized = true := by
      simp [showEvent, hf]
    constructor
    · conv_lhs => rw [showEvent]
      simp [h2]
    · exact h2

/-- C9: with empty plugin registries and no prior configuration, the
initialized page holds exactly the two synthetic rows: the copy/move row
(checked reflecting the general settings store) and the delete row
(checked false, the default of the absent ShowDeleteCommand entry); no
generic and no version-control rows exist. -/
theorem C9_empty_registries (cm : Bool) :
    (initializePanel
        { konqPopupServices := [], fileItemActionServices := [], jsonPlugins := []
          vcsPlugins := [], vcsServices := [] }
        { showGroup := [], showDeleteCommand := none, showCopyMoveMenu := cm
          enabledVcsPlugins := [] }).panel.rows
      = [{ icon := "edit-copy", label := "'Copy To' and 'Move To' commands"
           key := CopyToMoveToService, checked := cm },
         { icon := "edit-delete", label := "Delete"
           key := DeleteService, checked := false }] := by
  cases cm <;> rfl

/-- C10: applySettings leaves the in-memory page state unchanged: the
rows (hence every key, label, icon and checked state) and the
m_enabledVcsPlugins baseline snapshot keep their values, also when a new
enabled-plugins list is persisted. -/
theorem C10_apply_frame (s : AppState) :
    (applySettings s).1.panel.rows = s.panel.rows
    ∧ (applySettings s).1.panel.enabledVcsBaseline = s.panel.enabledVcsBaseline
    ∧ (applySettings s).1.panel.initialized = s.panel.initialized := by
  by_cases h : s.panel.initialized = true
  · rw [applySettings_initialized s h]
    by_cases hd :
        s.panel.enabledVcsBaseline ≠ ((viewRows s.panel).foldl applyStep (s.cfg, [])).2 <;>
      simp [hd]
  · have hf : s.panel.initialized = false := Bool.eq_false_iff.mpr h
    simp [applySettings, hf]

/-- The proxy view is sorted by label. -/
theorem viewRows_sorted (p : PanelState) : List.Sorted rowLe (viewRows p) :=
  List.sorted_insertionSort rowLe p.rows

/-- The labels collected from the checked version-control rows of the
view come out sorted, because the view itself is label-sorted. -/
theorem checkedVcsLabels_view_sorted (p : PanelState) :
    List.Sorted strLe (checkedVcsLabels (viewRows p)) := by
  have hs : List.Sorted rowLe
      ((viewRows p).filter (fun r =>
        strStartsWith r.key VersionControlServiceMarker && r.checked)) :=
    List.Pairwise.sublist (List.filter_sublist _) (viewRows_sorted p)
  exact List.Pairwise.map _ (fun _ _ h => h) hs

/-- std::sort is the identity on an already sorted list. -/
theorem sortStrings_of_sorted {l : List String} (h : List.Sorted strLe l) :
    sortStrings l = l :=
  List.Sorted.insertionSort_eq h

/-- C2: on an initialized page whose baseline snapshot is sorted (as the
constructor leaves it), applySettings persists the collected
version-control plugin list and requests the one-time restart notice
under its fixed identifier exactly when the collected list, compared as
sorted sequences, differs from the baseline snapshot; when the two are
equal no notice fires and the version-control settings store keeps its
value. -/
theorem C2_vcs_change_detection (s : AppState)
    (hinit : s.panel.initialized = true)
    (hbase : List.Sorted strLe s.panel.enabledVcsBaseline) :
    ((applySettings s).2 = some "ShowVcsRestartInformation"
      ↔ sortStrings (checkedVcsLabels (viewRows s.panel))
          ≠ sortStrings s.panel.enabledVcsBaseline)
    ∧ (sortStrings (checkedVcsLabels (viewRows s.panel))
          = sortStrings s.panel.enabledVcsBaseline →
        (applySettings s).2 = none
        ∧ (applySettings s).1.cfg.enabledVcsPlugins = s.cfg.enabledVcsPlugins)
    ∧ (sortStrings (checkedVcsLabels (viewRows s.panel))
          ≠ sortStrings s.panel.enabledVcsBaseline →
        (applySettings s).1.cfg.enabledVcsPlugins
          = checkedVcsLabels (viewRows s.panel)) := by
  have hsnd : ((viewRows s.panel).foldl applyStep (s.cfg, [])).2
      = checkedVcsLabels (viewRows s.panel) := by
    simpa using applyFold_snd (viewRows s.panel) s.cfg []
  have hcoll : sortStrings (checkedVcsLabels (viewRows s.panel))
      = checkedVcsLabels (viewRows s.panel) :=
    sortStrings_of_sorted (checkedVcsLabels_view_sorted s.panel)
  have hiff : (s.panel.enabledVcsBaseline
        ≠ ((viewRows s.panel).foldl applyStep (s.cfg, [])).2)
      ↔ sortStrings (checkedVcsLabels (viewRows s.panel))
          ≠ sortStrings s.panel.enabledVcsBaseline := by
    rw [hsnd, hcoll, sortStrings_of_sorted hbase]
    exact ne_comm
  rw [applySettings_initialized s hinit]
  by_cases hd : s.panel.enabledVcsBaseline
      = ((viewRows s.panel).foldl applyStep (s.cfg, [])).2
  · rw [if_neg (not_not_intro hd)]
    refine ⟨?_, ?_, ?_⟩
    · constructor
      · intro h
        exact absurd h (by simp)
      · intro h
        exact absurd hd (hiff.mpr h)
    · intro _
      exact ⟨rfl, applyFold_enabledVcs (viewRows s.panel) s.cfg []⟩
    · intro hne
      exact absurd hd (hiff.mpr hne)
  · rw [if_pos hd]
    refine ⟨?_, ?_, ?_⟩
    · exact iff_of_true rfl (hiff.mp hd)
    · intro heq
      exact absurd heq (hiff.mp hd)
    · intro _
      exact hsnd

/-- Witness for C2: at the demo state the collected list equals the
baseline, so no notice fires and the store keeps its value; enabling an
extra plugin in the baseline makes them differ, so the notice fires and
the collected list is persisted. -/
theorem C2_vcs_change_detection_witness :
    ((applySettings demoState).2 = none
      ∧ (applySettings demoState).1.cfg.enabledVcsPlugins = demoState.cfg.enabledVcsPlugins)
    ∧ (applySettings (initializePanel demoEnv
        { demoCfg with enabledVcsPlugins := ["Svn", "Git"] })).2
        = some "ShowVcsRestartInformation" := by
  constructor
  · exact (C2_vcs_change_detection demoState (by decide) (by decide)).2.1 (by decide)
  · exact (C2_vcs_change_detection
      (initializePanel demoEnv { demoCfg with enabledVcsPlugins := ["Svn", "Git"] })
      (by decide) (by decide)).1.mpr (by decide)

/-! ### loadVersionControlSystems characterization -/

/-- The row loadVersionControlSystems builds for a plugin name. -/
def vcsRow (enabled : List String) (name : String) : ServiceRow :=
  { icon := "code-class"
    label := name
    key := VersionControlServiceMarker ++ name
    checked := enabled.contains name }

/-- Equal character data means equal strings. -/
theorem string_data_inj {s t : String} (h : s.data = t.data) : s = t := by
  cases s
  cases t
  simp_all

/-- Appending to a fixed front string is injective. -/
theorem append_left_inj (p : String) {m n : String}
    (h : p ++ m = p ++ n) : m = n := by
  have h2 := congrArg String.data h
  rw [String.data_append, String.data_append] at h2
  exact string_data_inj (List.append_cancel_left h2)

/-- Any character list starts with the empty pattern. -/
theorem charsStartWith_nil : ∀ (s : List Char), charsStartWith s [] = true
  | [] => rfl
  | _ :: _ => rfl

/-- A character list starts with itself in front of anything. -/
theorem charsStartWith_append : ∀ (p s : List Char),
    charsStartWith (p ++ s) p = true
  | [], s => charsStartWith_nil s
  | c :: p, s => by simp [charsStartWith, charsStartWith_append p s]

/-- A marker-built key starts with the marker. -/
theorem strStartsWith_marker_append (n : String) :
    strStartsWith (VersionControlServiceMarker ++ n) VersionControlServiceMarker = true := by
  unfold strStartsWith
  rw [String.data_append]
  exact charsStartWith_append _ _

/-- The first loop of loadVersionControlSystems prepends one row per
plugin (duplicates included) and records the names in loadedPlugins. -/
theorem loadVcs_first_fold (enabled : List String) (names : List String) :
    ∀ (rows : List ServiceRow) (loaded : List String),
    names.foldl (loadVcsPluginStep enabled) (rows, loaded)
      = ((names.map (vcsRow enabled)).reverse ++ rows, loaded ++ names) := by
  induction names with
  | nil => intro rows loaded; simp
  | cons n rest ih =>
    intro rows loaded
    rw [List.foldl_cons]
    show rest.foldl (loadVcsPluginStep enabled) (vcsRow enabled n :: rows, loaded ++ [n])
      = _
    rw [ih]
    simp

/-- The second loop of loadVersionControlSystems prepends one row per
name not already in loadedPlugins (duplicates included). -/
theorem loadVcs_second_fold (enabled loaded : List String) (names : List String) :
    ∀ (rows : List ServiceRow),
    names.foldl (loadVcsServiceStep enabled loaded) rows
      = ((names.filter (fun n => !(loaded.contains n))).map (vcsRow enabled)).reverse
          ++ rows := by
  induction names with
  | nil => intro rows; simp
  | cons n rest ih =>
    intro rows
    rw [List.foldl_cons]
    by_cases h : loaded.contains n = true
    · have hstep : loadVcsServiceStep enabled loaded rows n = rows := by
        unfold loadVcsServiceStep
        rw [if_pos h]
      have hcond : (!(loaded.contains n)) = false := by rw [h]; rfl
      rw [hstep, ih, List.filter_cons,
        if_neg (by rw [hcond]; exact Bool.false_ne_true)]
    · have hf : loaded.contains n = false := Bool.eq_false_iff.mpr h
      have hstep : loadVcsServiceStep enabled loaded rows n
          = vcsRow enabled n :: rows := by
        unfold loadVcsServiceStep
        rw [if_neg h]
        rfl
      have hcond : (!(loaded.contains n)) = true := by rw [hf]; rfl
      rw [hstep, ih, List.filter_cons, if_pos hcond, List.map_cons,
        List.reverse_cons, List.append_assoc]
      rfl

/-- Closed form of loadVersionControlSystems: rows for the second source
(names not seen in the first), then rows for every first-source plugin,
then the previous rows. -/
theorem loadVersionControlSystems_eq (env : Env) (cfg : ConfigState)
    (rows : List ServiceRow) :
    loadVersionControlSystems env cfg rows
      = ((env.vcsServices.filter (fun n => !(env.vcsPlugins.contains n))).map
            (vcsRow cfg.enabledVcsPlugins)).reverse
        ++ ((env.vcsPlugins.map (vcsRow cfg.enabledVcsPlugins)).reverse ++ rows) := by
  simp only [loadVersionControlSystems]
  rw [loadVcs_first_fold]
  dsimp only
  rw [List.nil_append]
  exact loadVcs_second_fold _ _ _ _

/-- Counting a name in the second-source filter. -/
theorem count_filter_not_loaded (loaded : List String) (name : String)
    (l : List String) :
    (l.filter (fun n => !(loaded.contains n))).count name
      = if loaded.contains name = true then 0 else l.count name := by
  induction l with
  | nil =>
    by_cases he : loaded.contains name = true
    · simp [he]
    · simp [he]
  | cons n rest ih =>
    rw [List.filter_cons]
    by_cases hn : loaded.contains n = true
    · have hcond : (!(loaded.contains n)) = false := by rw [hn]; rfl
      rw [if_neg (by rw [hcond]; exact Bool.false_ne_true), ih]
      by_cases he : loaded.contains name = true
      · rw [if_pos he, if_pos he]
      · have hne : (n == name) = false := by
          apply beq_eq_false_iff_ne.mpr
          intro hEq
          rw [hEq] at hn
          exact he hn
        rw [if_neg he, if_neg he, List.count_cons, hne]
        simp
    · have hf : loaded.contains n = false := Bool.eq_false_iff.mpr hn
      have hcond : (!(loaded.contains n)) = true := by rw [hf]; rfl
      rw [if_pos hcond, List.count_cons, ih, List.count_cons]
      by_cases he : loaded.contains name = true
      · have hne : (n == name) = false := by
          apply beq_eq_false_iff_ne.mpr
          intro hEq
          rw [hEq, he] at hf
          exact absurd hf (by simp)
        rw [if_pos he, if_pos he, hne]
        simp
      · rw [if_neg he, if_neg he]

/-- Counting a marker-built key among the keys of mapped vcs rows. -/
theorem count_key_map_vcsRow (enabled : List String) (name : String)
    (l : List String) :
    (rowKeys (l.map (vcsRow enabled))).count (VersionControlServiceMarker ++ name)
      = l.count name := by
  induction l with
  | nil => rfl
  | cons n rest ih =>
    simp only [List.map_cons, rowKeys, List.count_cons] at ih ⊢
    rw [ih]
    by_cases h : n = name
    · simp [vcsRow, h]
    · have h1 : ((vcsRow enabled n).key
          == VersionControlServiceMarker ++ name) = false := by
        apply beq_eq_false_iff_ne.mpr
        intro hEq
        exact h (append_left_inj _ hEq)
      have h2 : (n == name) = false := beq_eq_false_iff_ne.mpr h
      simp [h1, h2]

/-- Keys of an appended row list. -/
theorem rowKeys_append (a b : List ServiceRow) :
    rowKeys (a ++ b) = rowKeys a ++ rowKeys b :=
  List.map_append _ a b

/-- Keys of a reversed row list. -/
theorem rowKeys_reverse (a : List ServiceRow) :
    rowKeys a.reverse = (rowKeys a).reverse :=
  List.map_reverse _ a

/-- Concrete environment carrying the same plugin name twice in the
first version-control source. -/
def dupVcsEnv : Env :=
  { konqPopupServices := [], fileItemActionServices := [], jsonPlugins := []
    vcsPlugins := ["Git", "Git"], vcsServices := [] }

/-- C4 counterexample: two same-named plugins in the single dolphin/vcs
source yield two rows with the same key, so the claimed deduplication by
name does not happen. -/
theorem C4_dedup_counterexample :
    rowKeys (loadVersionControlSystems dupVcsEnv demoCfg [])
        = ["_version_control_Git", "_version_control_Git"]
    ∧ ¬ (rowKeys (loadVersionControlSystems dupVcsEnv demoCfg [])).Nodup := by
  constructor
  · decide
  · decide

/-- C4 (amended): every row created by loadVersionControlSystems has key
equal to the reserved marker concatenated with the plugin name, label
equal to the name, and checked state equal to membership of the name in
the baseline snapshot taken at construction (the load re-reads the
store, which still holds the snapshot's elements); a second-source name
already present in the first source yields no row, while a name is kept
once per occurrence in the first source — duplicates within a single
source are not collapsed. -/
theorem C4_vcs_rows (env : Env) (cfg : ConfigState) (rows₀ : List ServiceRow)
    (baseline : List String)
    (hb : baseline = sortStrings cfg.enabledVcsPlugins) :
    ∃ new, loadVersionControlSystems env cfg rows₀ = new ++ rows₀
    ∧ (∀ r ∈ new, ∃ name,
        (name ∈ env.vcsPlugins ∨ name ∈ env.vcsServices)
        ∧ r.key = VersionControlServiceMarker ++ name
        ∧ r.label = name
        ∧ r.icon = "code-class"
        ∧ (r.checked = true ↔ name ∈ baseline))
    ∧ (∀ name : String,
        (rowKeys new).count (VersionControlServiceMarker ++ name)
          = env.vcsPlugins.count name
            + (if env.vcsPlugins.contains name = true then 0
               else env.vcsServices.count name)) := by
  refine ⟨((env.vcsServices.filter (fun n => !(env.vcsPlugins.contains n))).map
      (vcsRow cfg.enabledVcsPlugins)).reverse
      ++ (env.vcsPlugins.map (vcsRow cfg.enabledVcsPlugins)).reverse, ?_, ?_, ?_⟩
  · rw [loadVersionControlSystems_eq, List.append_assoc]
  · intro r hr
    have hmem : ∃ name, (name ∈ env.vcsPlugins ∨ name ∈ env.vcsServices)
        ∧ r = vcsRow cfg.enabledVcsPlugins name := by
      rcases List.mem_append.mp hr with h | h
      · rw [List.mem_reverse] at h
        obtain ⟨name, hn, hr'⟩ := List.mem_map.mp h
        exact ⟨name, Or.inr (List.mem_filter.mp hn).1, hr'.symm⟩
      · rw [List.mem_reverse] at h
        obtain ⟨name, hn, hr'⟩ := List.mem_map.mp h
        exact ⟨name, Or.inl hn, hr'.symm⟩
    obtain ⟨name, hsrc, rfl⟩ := hmem
    refine ⟨name, hsrc, rfl, rfl, rfl, ?_⟩
    have h1 : cfg.enabledVcsPlugins.contains name = true
        ↔ name ∈ cfg.enabledVcsPlugins := List.elem_iff
    have h2 : name ∈ cfg.enabledVcsPlugins ↔ name ∈ baseline := by
      rw [hb]
      exact (List.perm_insertionSort strLe cfg.enabledVcsPlugins).mem_iff.symm
    exact h1.trans h2
  · intro name
    rw [rowKeys_append, rowKeys_reverse, rowKeys_reverse, List.count_append,
      List.count_reverse, List.count_reverse, count_key_map_vcsRow,
      count_key_map_vcsRow, count_filter_not_loaded]
    exact Nat.add_comm _ _

/-- Witness for the amended C4 at the demo environment. -/
theorem C4_vcs_rows_witness :
    ∃ new, loadVersionControlSystems demoEnv demoCfg [] = new ++ []
    ∧ (∀ r ∈ new, ∃ name,
        (name ∈ demoEnv.vcsPlugins ∨ name ∈ demoEnv.vcsServices)
        ∧ r.key = VersionControlServiceMarker ++ name
        ∧ r.label = name
        ∧ r.icon = "code-class"
        ∧ (r.checked = true ↔ name ∈ ["Git"]))
    ∧ (∀ name : String,
        (rowKeys new).count (VersionControlServiceMarker ++ name)
          = demoEnv.vcsPlugins.count name
            + (if demoEnv.vcsPlugins.contains name = true then 0
               else demoEnv.vcsServices.count name)) :=
  C4_vcs_rows demoEnv demoCfg [] ["Git"] (by decide)

/-! ### loadServices machinery -/

/-- isInServicesList finds a key exactly when some row carries it. -/
theorem isInServicesList_iff (rows : List ServiceRow) (k : String) :
    isInServicesList rows k = true ↔ k ∈ rowKeys rows := by
  simp only [isInServicesList, List.any_eq_true, rowKeys, List.mem_map,
    beq_iff_eq]

/-- Specification of one guarded add of the loadServices loops: the
candidate is skipped, or one new row with a previously absent key is
prepended, the row being related to the candidate by P. -/
def StepAdds {σ : Type} (f : List ServiceRow → σ → List ServiceRow)
    (P : σ → ServiceRow → Prop) : Prop :=
  ∀ rows x, f rows x = rows
    ∨ ∃ r, f rows x = r :: rows ∧ r.key ∉ rowKeys rows ∧ P x r

/-- Specification of a prepend-only pass: new rows related to the
candidate go in front, and duplicate-freedom of keys is preserved. -/
def StepExtends {σ : Type} (f : List ServiceRow → σ → List ServiceRow)
    (P : σ → ServiceRow → Prop) : Prop :=
  ∀ rows x, ∃ new, f rows x = new ++ rows
    ∧ (∀ r ∈ new, P x r)
    ∧ ((rowKeys rows).Nodup → (rowKeys (new ++ rows)).Nodup)

/-- A guarded add is a prepend-only pass. -/
theorem StepAdds.toExtends {σ : Type} {f : List ServiceRow → σ → List ServiceRow}
    {P : σ → ServiceRow → Prop} (hf : StepAdds f P) : StepExtends f P := by
  intro rows x
  rcases hf rows x with h | ⟨r, hEq, hNot, hP⟩
  · exact ⟨[], by simpa using h, by simp, fun h' => by simpa using h'⟩
  · refine ⟨[r], by simpa using hEq, by simpa using hP, ?_⟩
    intro hnd
    have : (rowKeys (r :: rows)).Nodup := by
      rw [show rowKeys (r :: rows) = r.key :: rowKeys rows from rfl]
      exact List.nodup_cons.mpr ⟨hNot, hnd⟩
    simpa using this

/-- Folding a prepend-only pass over candidates yields the new rows in
front, each related to some candidate, preserving key uniqueness. -/
theorem foldl_stepExtends {σ : Type} {f : List ServiceRow → σ → List ServiceRow}
    {P : σ → ServiceRow → Prop} (hf : StepExtends f P) (xs : List σ) :
    ∀ rows, ∃ new, xs.foldl f rows = new ++ rows
      ∧ (∀ r ∈ new, ∃ x ∈ xs, P x r)
      ∧ ((rowKeys rows).Nodup → (rowKeys (new ++ rows)).Nodup) := by
  induction xs with
  | nil =>
    intro rows
    exact ⟨[], rfl, by simp, fun h => by simpa using h⟩
  | cons x rest ih =>
    intro rows
    obtain ⟨new1, h1, hp1, hn1⟩ := hf rows x
    obtain ⟨new2, h2, hp2, hn2⟩ := ih (new1 ++ rows)
    refine ⟨new2 ++ new1, ?_, ?_, ?_⟩
    · rw [List.foldl_cons, h1, h2, List.append_assoc]
    · intro r hr
      rcases List.mem_append.mp hr with h | h
      · obtain ⟨x', hx', hp⟩ := hp2 r h
        exact ⟨x', List.mem_cons_of_mem _ hx', hp⟩
      · exact ⟨x, List.mem_cons_self _ _, hp1 r h⟩
    · intro hnd
      have := hn2 (hn1 hnd)
      rw [← List.append_assoc] at this
      exact this

/-- Rows only grow: anything present before a pass is present after. -/
theorem stepExtends_mem_mono {σ : Type} {f : List ServiceRow → σ → List ServiceRow}
    {P : σ → ServiceRow → Prop} (hf : StepExtends f P) (xs : List σ)
    (rows : List ServiceRow) {r : ServiceRow} (h : r ∈ rows) :
    r ∈ xs.foldl f rows := by
  obtain ⟨new, hEq, _, _⟩ := foldl_stepExtends hf xs rows
  rw [hEq]
  exact List.mem_append_right _ h

/-- Keys only grow: any key present before a pass is present after. -/
theorem stepExtends_key_mono {σ : Type} {f : List ServiceRow → σ → List ServiceRow}
    {P : σ → ServiceRow → Prop} (hf : StepExtends f P) (xs : List σ)
    (rows : List ServiceRow) {k : String} (h : k ∈ rowKeys rows) :
    k ∈ rowKeys (xs.foldl f rows) := by
  obtain ⟨new, hEq, _, _⟩ := foldl_stepExtends hf xs rows
  rw [hEq, rowKeys_append]
  exact List.mem_append_right _ h

/-- The inner action loop of loadServices is a guarded add. -/
theorem serviceActionStep_adds (g : List (String × Bool)) (m : String) :
    StepAdds (serviceActionStep g m) (fun a r =>
      a.noDisplay = false ∧ a.isSeparator = false ∧ r.key = a.name
      ∧ r.icon = a.icon
      ∧ r.label = (if m.isEmpty then a.text else m ++ ": " ++ a.text)
      ∧ r.checked = readShowEntry g a.name true) := by
  intro rows a
  unfold serviceActionStep
  by_cases hcond :
      (!a.noDisplay && !a.isSeparator && !(isInServicesList rows a.name)) = true
  · right
    rw [if_pos hcond]
    simp only [Bool.and_eq_true, Bool.not_eq_true'] at hcond
    obtain ⟨⟨hnd, hsep⟩, hnotin⟩ := hcond
    refine ⟨_, rfl, ?_, hnd, hsep, rfl, rfl, rfl, rfl⟩
    intro hmem
    exact absurd ((isInServicesList_iff rows a.name).mpr hmem)
      (by rw [hnotin]; simp)
  · left
    rw [if_neg hcond]

/-- The plugin-entry loops of loadServices are guarded adds. -/
theorem pluginEntryStep_adds (g : List (String × Bool)) :
    StepAdds (pluginEntryStep g) (fun p r =>
      r.key = p.entryName ∧ r.icon = p.icon ∧ r.label = p.name
      ∧ r.checked = readShowEntry g p.entryName true) := by
  intro rows p
  unfold pluginEntryStep
  by_cases hcond : (!(isInServicesList rows p.entryName)) = true
  · right
    rw [if_pos hcond]
    simp only [Bool.not_eq_true'] at hcond
    refine ⟨_, rfl, ?_, rfl, rfl, rfl, rfl⟩
    intro hmem
    exact absurd ((isInServicesList_iff rows p.entryName).mpr hmem)
      (by rw [hcond]; simp)
  · left
    rw [if_neg hcond]

/-- The per-service step of the first loadServices source is a
prepend-only pass. -/
theorem genericServiceStep_extends (g : List (String × Bool)) :
    StepExtends (genericServiceStep g) (fun svc r => ∃ a ∈ svc.actions,
      a.noDisplay = false ∧ a.isSeparator = false ∧ r.key = a.name
      ∧ r.icon = a.icon
      ∧ r.label = (if svc.subMenuName.isEmpty then a.text
          else svc.subMenuName ++ ": " ++ a.text)
      ∧ r.checked = readShowEntry g a.name true) := by
  intro rows svc
  exact foldl_stepExtends ((serviceActionStep_adds g svc.subMenuName).toExtends)
    svc.actions rows

/-- Shape of a row created by loadServices: it originates from one of
the three generic sources, with its key, icon and label taken from the
candidate (with the submenu-composed label for the first source) and its
checked state read from the Show group with default true. -/
def genericOrigin (env : Env) (cfg : ConfigState) (r : ServiceRow) : Prop :=
  (∃ svc ∈ env.konqPopupServices, ∃ a ∈ svc.actions,
      a.noDisplay = false ∧ a.isSeparator = false ∧ r.key = a.name
      ∧ r.icon = a.icon
      ∧ r.label = (if svc.subMenuName.isEmpty then a.text
          else svc.subMenuName ++ ": " ++ a.text)
      ∧ r.checked = readShowEntry cfg.showGroup a.name true)
  ∨ (∃ p ∈ env.fileItemActionServices,
      r.key = p.entryName ∧ r.icon = p.icon ∧ r.label = p.name
      ∧ r.checked = readShowEntry cfg.showGroup p.entryName true)
  ∨ (∃ p ∈ env.jsonPlugins,
      r.key = p.entryName ∧ r.icon = p.icon ∧ r.label = p.name
      ∧ r.checked = readShowEntry cfg.showGroup p.entryName true)

/-- Characterization of loadServices: it prepends rows of generic
origin and preserves key uniqueness. -/
theorem loadServices_shape (env : Env) (cfg : ConfigState)
    (rows₀ : List ServiceRow) :
    ∃ new, loadServices env cfg rows₀ = new ++ rows₀
    ∧ (∀ r ∈ new, genericOrigin env cfg r)
    ∧ ((rowKeys rows₀).Nodup → (rowKeys (new ++ rows₀)).Nodup) := by
  obtain ⟨n1, h1, hp1, hn1⟩ :=
    foldl_stepExtends (genericServiceStep_extends cfg.showGroup)
      env.konqPopupServices rows₀
  obtain ⟨n2, h2, hp2, hn2⟩ :=
    foldl_stepExtends ((pluginEntryStep_adds cfg.showGroup).toExtends)
      env.fileItemActionServices (n1 ++ rows₀)
  obtain ⟨n3, h3, hp3, hn3⟩ :=
    foldl_stepExtends ((pluginEntryStep_adds cfg.showGroup).toExtends)
      env.jsonPlugins (n2 ++ (n1 ++ rows₀))
  refine ⟨n3 ++ (n2 ++ n1), ?_, ?_, ?_⟩
  · simp only [loadServices]
    rw [h1, h2, h3]
    simp [List.append_assoc]
  · intro r hr
    rcases List.mem_append.mp hr with h | h
    · obtain ⟨p, hp, hshape⟩ := hp3 r h
      exact Or.inr (Or.inr ⟨p, hp, hshape⟩)
    · rcases List.mem_append.mp h with h' | h'
      · obtain ⟨p, hp, hshape⟩ := hp2 r h'
        exact Or.inr (Or.inl ⟨p, hp, hshape⟩)
      · obtain ⟨svc, hsvc, hshape⟩ := hp1 r h'
        exact Or.inl ⟨svc, hsvc, hshape⟩
  · intro hnd
    have := hn3 (hn2 (hn1 hnd))
    rw [← List.append_assoc, ← List.append_assoc] at this
    rw [← List.append_assoc]
    exact this

/-- Processing a visible, non-separator action leaves its key present. -/
theorem serviceActionStep_key_mem (g : List (String × Bool)) (m : String)
    (rows : List ServiceRow) (a : KServiceAction)
    (h1 : a.noDisplay = false) (h2 : a.isSeparator = false) :
    a.name ∈ rowKeys (serviceActionStep g m rows a) := by
  by_cases h : isInServicesList rows a.name = true
  · have hmem := (isInServicesList_iff rows a.name).mp h
    rcases serviceActionStep_adds g m rows a with hEq | ⟨r, hEq, _, _⟩
    · rw [hEq]
      exact hmem
    · rw [hEq, show rowKeys (r :: rows) = r.key :: rowKeys rows from rfl]
      exact List.mem_cons_of_mem _ hmem
  · have hf : isInServicesList rows a.name = false := Bool.eq_false_iff.mpr h
    unfold serviceActionStep
    rw [if_pos (by rw [h1, h2, hf]; rfl)]
    exact List.mem_cons_self _ _

/-- Processing a plugin entry leaves its key present. -/
theorem pluginEntryStep_key_mem (g : List (String × Bool))
    (rows : List ServiceRow) (p : PluginEntry) :
    p.entryName ∈ rowKeys (pluginEntryStep g rows p) := by
  by_cases h : isInServicesList rows p.entryName = true
  · have hmem := (isInServicesList_iff rows p.entryName).mp h
    rcases pluginEntryStep_adds g rows p with hEq | ⟨r, hEq, _, _⟩
    · rw [hEq]
      exact hmem
    · rw [hEq, show rowKeys (r :: rows) = r.key :: rowKeys rows from rfl]
      exact List.mem_cons_of_mem _ hmem
  · have hf : isInServicesList rows p.entryName = false := Bool.eq_false_iff.mpr h
    unfold pluginEntryStep
    rw [if_pos (by rw [hf]; rfl)]
    exact List.mem_cons_self _ _

/-- After a service of the first source is processed, the keys of its
visible, non-separator actions are present. -/
theorem genericServiceStep_key_mem (g : List (String × Bool))
    (rows : List ServiceRow) (svc : GenericService) (a : KServiceAction)
    (ha : a ∈ svc.actions) (h1 : a.noDisplay = false) (h2 : a.isSeparator = false) :
    a.name ∈ rowKeys (genericServiceStep g rows svc) := by
  obtain ⟨l₁, l₂, hsplit⟩ := List.append_of_mem ha
  show a.name ∈ rowKeys (svc.actions.foldl (serviceActionStep g svc.subMenuName) rows)
  rw [hsplit, List.foldl_append, List.foldl_cons]
  apply stepExtends_key_mono ((serviceActionStep_adds g svc.subMenuName).toExtends)
  exact serviceActionStep_key_mem g svc.subMenuName _ a h1 h2

/-- Every visible, non-separator action of the first source leaves its
key in the loaded rows. -/
theorem loadServices_key_mem_src1 (env : Env) (cfg : ConfigState)
    (rows₀ : List ServiceRow) (svc : GenericService) (a : KServiceAction)
    (hsvc : svc ∈ env.konqPopupServices) (ha : a ∈ svc.actions)
    (h1 : a.noDisplay = false) (h2 : a.isSeparator = false) :
    a.name ∈ rowKeys (loadServices env cfg rows₀) := by
  simp only [loadServices]
  apply stepExtends_key_mono ((pluginEntryStep_adds cfg.showGroup).toExtends)
  apply stepExtends_key_mono ((pluginEntryStep_adds cfg.showGroup).toExtends)
  obtain ⟨l₁, l₂, hsplit⟩ := List.append_of_mem hsvc
  rw [hsplit, List.foldl_append, List.foldl_cons]
  apply stepExtends_key_mono (genericServiceStep_extends cfg.showGroup)
  exact genericServiceStep_key_mem cfg.showGroup _ svc a ha h1 h2

/-- Every entry of the second source leaves its key in the loaded rows. -/
theorem loadServices_key_mem_src2 (env : Env) (cfg : ConfigState)
    (rows₀ : List ServiceRow) (p : PluginEntry)
    (hp : p ∈ env.fileItemActionServices) :
    p.entryName ∈ rowKeys (loadServices env cfg rows₀) := by
  simp only [loadServices]
  apply stepExtends_key_mono ((pluginEntryStep_adds cfg.showGroup).toExtends)
  obtain ⟨l₁, l₂, hsplit⟩ := List.append_of_mem hp
  rw [hsplit, List.foldl_append, List.foldl_cons]
  apply stepExtends_key_mono ((pluginEntryStep_adds cfg.showGroup).toExtends)
  exact pluginEntryStep_key_mem cfg.showGroup _ p

/-- Every entry of the third source leaves its key in the loaded rows. -/
theorem loadServices_key_mem_src3 (env : Env) (cfg : ConfigState)
    (rows₀ : List ServiceRow) (p : PluginEntry) (hp : p ∈ env.jsonPlugins) :
    p.entryName ∈ rowKeys (loadServices env cfg rows₀) := by
  simp only [loadServices]
  obtain ⟨l₁, l₂, hsplit⟩ := List.append_of_mem hp
  rw [hsplit, List.foldl_append, List.foldl_cons]
  apply stepExtends_key_mono ((pluginEntryStep_adds cfg.showGroup).toExtends)
  exact pluginEntryStep_key_mem cfg.showGroup _ p

/-- If the first source qualifies a key not present before the load,
some loaded row carries that key with first-source shape. -/
theorem loadServices_src1_shape (env : Env) (cfg : ConfigState)
    (rows₀ : List ServiceRow) (k : String) (hk : k ∉ rowKeys rows₀)
    (svc : GenericService) (a : KServiceAction)
    (hsvc : svc ∈ env.konqPopupServices) (ha : a ∈ svc.actions)
    (h1 : a.noDisplay = false) (h2 : a.isSeparator = false)
    (hname : a.name = k) :
    ∃ r ∈ loadServices env cfg rows₀, r.key = k
      ∧ ∃ svc' ∈ env.konqPopupServices, ∃ a' ∈ svc'.actions,
          a'.noDisplay = false ∧ a'.isSeparator = false ∧ r.key = a'.name
          ∧ r.icon = a'.icon
          ∧ r.label = (if svc'.subMenuName.isEmpty then a'.text
              else svc'.subMenuName ++ ": " ++ a'.text)
          ∧ r.checked = readShowEntry cfg.showGroup a'.name true := by
  obtain ⟨n1, h1fold, hp1, _⟩ :=
    foldl_stepExtends (genericServiceStep_extends cfg.showGroup)
      env.konqPopupServices rows₀
  have hkmem : k ∈ rowKeys (env.konqPopupServices.foldl
      (genericServiceStep cfg.showGroup) rows₀) := by
    obtain ⟨l₁, l₂, hsplit⟩ := List.append_of_mem hsvc
    rw [hsplit, List.foldl_append, List.foldl_cons]
    apply stepExtends_key_mono (genericServiceStep_extends cfg.showGroup)
    rw [← hname]
    exact genericServiceStep_key_mem cfg.showGroup _ svc a ha h1 h2
  rw [h1fold, rowKeys_append] at hkmem
  have hknew : k ∈ rowKeys n1 := by
    rcases List.mem_append.mp hkmem with h | h
    · exact h
    · exact absurd h hk
  obtain ⟨r, hr, hrk⟩ := List.mem_map.mp hknew
  have hshape := hp1 r hr
  refine ⟨r, ?_, hrk, hshape⟩
  have hr1 : r ∈ env.konqPopupServices.foldl
      (genericServiceStep cfg.showGroup) rows₀ := by
    rw [h1fold]
    exact List.mem_append_left _ hr
  simp only [loadServices]
  apply stepExtends_mem_mono ((pluginEntryStep_adds cfg.showGroup).toExtends)
  apply stepExtends_mem_mono ((pluginEntryStep_adds cfg.showGroup).toExtends)
  exact hr1

/-- Spec-side: the row a visible first-source action would create, with
the submenu-composed label and the stored checked state (default true). -/
def actionRow (g : List (String × Bool)) (m : String) (a : KServiceAction) :
    ServiceRow :=
  { icon := a.icon
    label := if m.isEmpty then a.text else m ++ ": " ++ a.text
    key := a.name
    checked := readShowEntry g a.name true }

/-- Spec-side: the row a second- or third-source plugin entry would
create, with the stored checked state (default true). -/
def entryRow (g : List (String × Bool)) (p : PluginEntry) : ServiceRow :=
  { icon := p.icon
    label := p.name
    key := p.entryName
    checked := readShowEntry g p.entryName true }

/-- Spec-side: all candidate rows of the three generic sources in
processing order — the visible, non-separator actions of every
KonqPopupMenu service, then the KFileItemAction services, then the JSON
plugins. -/
def candidateRows (env : Env) (cfg : ConfigState) : List ServiceRow :=
  (env.konqPopupServices.map (fun svc =>
      (svc.actions.filter (fun a => !a.noDisplay && !a.isSeparator)).map
        (actionRow cfg.showGroup svc.subMenuName))).flatten
    ++ env.fileItemActionServices.map (entryRow cfg.showGroup)
    ++ env.jsonPlugins.map (entryRow cfg.showGroup)

/-- Spec-side first-seen-wins: keep each candidate whose key is neither
initially present nor carried by an earlier kept candidate. -/
def dedupByKey : List String → List ServiceRow → List ServiceRow
  | _, [] => []
  | present, r :: rest =>
    if r.key ∈ present then dedupByKey present rest
    else r :: dedupByKey (r.key :: present) rest

/-- The common step shape of all loadServices loops: prepend the
candidate row unless its key is already in the collection. -/
def addIfAbsent (rows : List ServiceRow) (r : ServiceRow) : List ServiceRow :=
  if isInServicesList rows r.key then rows else r :: rows

/-- The first-source action step is the guarded add of the action's row,
gated on the visibility flags. -/
theorem serviceActionStep_eq_addIfAbsent (g : List (String × Bool))
    (m : String) (rows : List ServiceRow) (a : KServiceAction) :
    serviceActionStep g m rows a
      = if (!a.noDisplay && !a.isSeparator) = true
        then addIfAbsent rows (actionRow g m a) else rows := by
  rcases hnd : a.noDisplay with _ | _ <;>
    rcases hsep : a.isSeparator with _ | _ <;>
    rcases hin : isInServicesList rows a.name with _ | _ <;>
    simp [serviceActionStep, addIfAbsent, actionRow, addRow, hnd, hsep, hin]

/-- The plugin-entry step is the guarded add of the entry's row. -/
theorem pluginEntryStep_eq_addIfAbsent (g : List (String × Bool))
    (rows : List ServiceRow) (p : PluginEntry) :
    pluginEntryStep g rows p = addIfAbsent rows (entryRow g p) := by
  rcases hin : isInServicesList rows p.entryName with _ | _ <;>
    simp [pluginEntryStep, addIfAbsent, entryRow, addRow, hin]

/-- The inner action loop is the guarded-add fold over the visible
candidate rows. -/
theorem foldl_actions_eq (g : List (String × Bool)) (m : String)
    (actions : List KServiceAction) :
    ∀ rows, actions.foldl (serviceActionStep g m) rows
      = ((actions.filter (fun a => !a.noDisplay && !a.isSeparator)).map
          (actionRow g m)).foldl addIfAbsent rows := by
  induction actions with
  | nil => intro rows; rfl
  | cons a rest ih =>
    intro rows
    rw [List.foldl_cons, serviceActionStep_eq_addIfAbsent, List.filter_cons]
    by_cases h : (!a.noDisplay && !a.isSeparator) = true
    · rw [if_pos h, if_pos h, List.map_cons, List.foldl_cons, ih]
    · rw [if_neg h, if_neg h, ih]

/-- The outer service loop is the guarded-add fold over the flattened
candidate rows of the first source. -/
theorem foldl_services_eq (g : List (String × Bool))
    (svcs : List GenericService) :
    ∀ rows, svcs.foldl (genericServiceStep g) rows
      = ((svcs.map (fun svc =>
          (svc.actions.filter (fun a => !a.noDisplay && !a.isSeparator)).map
            (actionRow g svc.subMenuName))).flatten).foldl addIfAbsent rows := by
  induction svcs with
  | nil => intro rows; rfl
  | cons svc rest ih =>
    intro rows
    rw [List.foldl_cons, List.map_cons, List.flatten_cons, List.foldl_append]
    rw [show genericServiceStep g rows svc
        = svc.actions.foldl (serviceActionStep g svc.subMenuName) rows from rfl]
    rw [foldl_actions_eq, ih]

/-- An entry loop is the guarded-add fold over its candidate rows. -/
theorem foldl_entries_eq (g : List (String × Bool)) (ps : List PluginEntry) :
    ∀ rows, ps.foldl (pluginEntryStep g) rows
      = (ps.map (entryRow g)).foldl addIfAbsent rows := by
  induction ps with
  | nil => intro rows; rfl
  | cons p rest ih =>
    intro rows
    rw [List.foldl_cons, List.map_cons, List.foldl_cons,
      pluginEntryStep_eq_addIfAbsent, ih]

/-- loadServices is the guarded-add fold over the candidates of all
three sources in processing order. -/
theorem loadServices_eq_foldl_candidates (env : Env) (cfg : ConfigState)
    (rows₀ : List ServiceRow) :
    loadServices env cfg rows₀
      = (candidateRows env cfg).foldl addIfAbsent rows₀ := by
  simp only [loadServices, candidateRows]
  rw [foldl_services_eq, foldl_entries_eq, foldl_entries_eq,
    List.foldl_append, List.foldl_append]

/-- The guarded-add fold keeps exactly the first candidate of each key
that is not initially present, in order. -/
theorem foldl_addIfAbsent_eq_dedup (cands : List ServiceRow) :
    ∀ rows, cands.foldl addIfAbsent rows
      = (dedupByKey (rowKeys rows) cands).reverse ++ rows := by
  induction cands with
  | nil => intro rows; rfl
  | cons c rest ih =>
    intro rows
    rw [List.foldl_cons]
    by_cases h : c.key ∈ rowKeys rows
    · have hin : isInServicesList rows c.key = true :=
        (isInServicesList_iff rows c.key).mpr h
      have h1 : addIfAbsent rows c = rows := by
        unfold addIfAbsent
        rw [if_pos hin]
      have h2 : dedupByKey (rowKeys rows) (c :: rest)
          = dedupByKey (rowKeys rows) rest := by
        simp only [dedupByKey]
        rw [if_pos h]
      rw [h1, h2, ih]
    · have hin : isInServicesList rows c.key = false := by
        rcases hq : isInServicesList rows c.key with _ | _
        · rfl
        · exact absurd ((isInServicesList_iff rows c.key).mp hq) h
      have h1 : addIfAbsent rows c = c :: rows := by
        unfold addIfAbsent
        rw [if_neg (by rw [hin]; exact Bool.false_ne_true)]
      have h2 : dedupByKey (rowKeys rows) (c :: rest)
          = c :: dedupByKey (c.key :: rowKeys rows) rest := by
        simp only [dedupByKey]
        rw [if_neg h]
      rw [h1, h2, ih (c :: rows),
        show rowKeys (c :: rows) = c.key :: rowKeys rows from rfl,
        List.reverse_cons, List.append_assoc]
      rfl

/-- A kept candidate's key was not initially present. -/
theorem mem_dedupByKey_not_present : ∀ (cands : List ServiceRow)
    (present : List String) (r : ServiceRow),
    r ∈ dedupByKey present cands → r.key ∉ present
  | [], _, _, h => absurd h (List.not_mem_nil _)
  | c :: rest, present, r, h => by
    by_cases hc : c.key ∈ present
    · rw [show dedupByKey present (c :: rest) = dedupByKey present rest from by
        simp only [dedupByKey]
        rw [if_pos hc]] at h
      exact mem_dedupByKey_not_present rest present r h
    · rw [show dedupByKey present (c :: rest)
          = c :: dedupByKey (c.key :: present) rest from by
        simp only [dedupByKey]
        rw [if_neg hc]] at h
      rcases List.mem_cons.mp h with rfl | h
      · exact hc
      · intro hmem
        exact (mem_dedupByKey_not_present rest (c.key :: present) r h)
          (List.mem_cons_of_mem _ hmem)

/-- A kept candidate is the first candidate carrying its key. -/
theorem find?_of_mem_dedupByKey : ∀ (cands : List ServiceRow)
    (present : List String) (r : ServiceRow),
    r ∈ dedupByKey present cands →
    cands.find? (fun c => c.key == r.key) = some r
  | [], _, _, h => absurd h (List.not_mem_nil _)
  | c :: rest, present, r, h => by
    by_cases hc : c.key ∈ present
    · rw [show dedupByKey present (c :: rest) = dedupByKey present rest from by
        simp only [dedupByKey]
        rw [if_pos hc]] at h
      have hnp := mem_dedupByKey_not_present rest present r h
      have hne : (c.key == r.key) = false := by
        apply beq_eq_false_iff_ne.mpr
        intro hEq
        exact hnp (hEq ▸ hc)
      rw [List.find?_cons_of_neg _ (by rw [hne]; exact Bool.false_ne_true)]
      exact find?_of_mem_dedupByKey rest present r h
    · rw [show dedupByKey present (c :: rest)
          = c :: dedupByKey (c.key :: present) rest from by
        simp only [dedupByKey]
        rw [if_neg hc]] at h
      rcases List.mem_cons.mp h with rfl | h
      · exact List.find?_cons_of_pos _ (beq_self_eq_true r.key)
      · have hnp := mem_dedupByKey_not_present rest (c.key :: present) r h
        have hne : (c.key == r.key) = false := by
          apply beq_eq_false_iff_ne.mpr
          intro hEq
          exact hnp (hEq ▸ List.mem_cons_self c.key present)
        rw [List.find?_cons_of_neg _ (by rw [hne]; exact Bool.false_ne_true)]
        exact find?_of_mem_dedupByKey rest (c.key :: present) r h

/-- C7: loadServices skips hidden and separator actions, skips any
candidate whose key is already in the collection (first seen wins,
across all three generic sources, so each new key appears exactly once),
composes first-source labels from the optional submenu name, and sets
each new row's checked state to the stored Show-group value for its key
with default true. The new rows are exactly the first-occurrence
deduplication of the candidate rows of the three sources in processing
order, so every new row equals the first candidate carrying its key;
every qualifying candidate key absent from the prior collection ends up
present, and a key qualified by the first source gets its row from the
first source. -/
theorem C7_load_generic_services (env : Env) (cfg : ConfigState)
    (rows₀ : List ServiceRow) (h₀ : (rowKeys rows₀).Nodup) :
    ∃ new, loadServices env cfg rows₀ = new ++ rows₀
    ∧ new.reverse = dedupByKey (rowKeys rows₀) (candidateRows env cfg)
    ∧ (∀ r ∈ new,
        (candidateRows env cfg).find? (fun c => c.key == r.key) = some r)
    ∧ (rowKeys (new ++ rows₀)).Nodup
    ∧ (∀ r ∈ new, genericOrigin env cfg r)
    ∧ (∀ k : String, k ∉ rowKeys rows₀ →
        ((∃ svc ∈ env.konqPopupServices, ∃ a ∈ svc.actions,
            a.noDisplay = false ∧ a.isSeparator = false ∧ a.name = k)
          ∨ (∃ p ∈ env.fileItemActionServices, p.entryName = k)
          ∨ (∃ p ∈ env.jsonPlugins, p.entryName = k)) →
        k ∈ rowKeys new)
    ∧ (∀ k : String, k ∉ rowKeys rows₀ →
        (∃ svc ∈ env.konqPopupServices, ∃ a ∈ svc.actions,
          a.noDisplay = false ∧ a.isSeparator = false ∧ a.name = k) →
        ∀ r ∈ new, r.key = k →
          ∃ svc ∈ env.konqPopupServices, ∃ a ∈ svc.actions,
            a.noDisplay = false ∧ a.isSeparator = false ∧ r.key = a.name
            ∧ r.icon = a.icon
            ∧ r.label = (if svc.subMenuName.isEmpty then a.text
                else svc.subMenuName ++ ": " ++ a.text)
            ∧ r.checked = readShowEntry cfg.showGroup a.name true) := by
  obtain ⟨new, hEq, horigin, hnodup⟩ := loadServices_shape env cfg rows₀
  have hchar : new = (dedupByKey (rowKeys rows₀) (candidateRows env cfg)).reverse :=
    List.append_cancel_right (by
      rw [← hEq, loadServices_eq_foldl_candidates, foldl_addIfAbsent_eq_dedup])
  have hrev : new.reverse = dedupByKey (rowKeys rows₀) (candidateRows env cfg) := by
    rw [hchar, List.reverse_reverse]
  refine ⟨new, hEq, hrev, ?_, hnodup h₀, horigin, ?_, ?_⟩
  · intro r hr
    apply find?_of_mem_dedupByKey (candidateRows env cfg) (rowKeys rows₀) r
    rw [← hrev]
    exact List.mem_reverse.mpr hr
  · intro k hk hq
    have hmem : k ∈ rowKeys (loadServices env cfg rows₀) := by
      rcases hq with ⟨svc, hsvc, a, ha, h1, h2, hname⟩ | ⟨p, hp, hname⟩ | ⟨p, hp, hname⟩
      · rw [← hname]
        exact loadServices_key_mem_src1 env cfg rows₀ svc a hsvc ha h1 h2
      · rw [← hname]
        exact loadServices_key_mem_src2 env cfg rows₀ p hp
      · rw [← hname]
        exact loadServices_key_mem_src3 env cfg rows₀ p hp
    rw [hEq, rowKeys_append] at hmem
    rcases List.mem_append.mp hmem with h | h
    · exact h
    · exact absurd h hk
  · intro k hk hq r hr hrk
    obtain ⟨svc, hsvc, a, ha, h1, h2, hname⟩ := hq
    obtain ⟨r', hr', hr'k, hshape⟩ :=
      loadServices_src1_shape env cfg rows₀ k hk svc a hsvc ha h1 h2 hname
    have hndAll : ((loadServices env cfg rows₀).map (fun q => q.key)).Nodup := by
      have := hnodup h₀
      rw [hEq]
      exact this
    have hrIn : r ∈ loadServices env cfg rows₀ := by
      rw [hEq]
      exact List.mem_append_left _ hr
    have hrr' : r = r' :=
      List.inj_on_of_nodup_map hndAll hrIn hr' (by rw [hrk, hr'k])
    rw [hrr']
    exact hshape

/-- Witness for C7 at the demo environment starting from the empty
collection. -/
theorem C7_load_generic_services_witness :
    ∃ new, loadServices demoEnv demoCfg [] = new ++ []
    ∧ new.reverse = dedupByKey (rowKeys []) (candidateRows demoEnv demoCfg)
    ∧ (∀ r ∈ new,
        (candidateRows demoEnv demoCfg).find? (fun c => c.key == r.key) = some r)
    ∧ (rowKeys (new ++ [])).Nodup
    ∧ (∀ r ∈ new, genericOrigin demoEnv demoCfg r)
    ∧ (∀ k : String, k ∉ rowKeys [] →
        ((∃ svc ∈ demoEnv.konqPopupServices, ∃ a ∈ svc.actions,
            a.noDisplay = false ∧ a.isSeparator = false ∧ a.name = k)
          ∨ (∃ p ∈ demoEnv.fileItemActionServices, p.entryName = k)
          ∨ (∃ p ∈ demoEnv.jsonPlugins, p.entryName = k)) →
        k ∈ rowKeys new)
    ∧ (∀ k : String, k ∉ rowKeys [] →
        (∃ svc ∈ demoEnv.konqPopupServices, ∃ a ∈ svc.actions,
          a.noDisplay = false ∧ a.isSeparator = false ∧ a.name = k) →
        ∀ r ∈ new, r.key = k →
          ∃ svc ∈ demoEnv.konqPopupServices, ∃ a ∈ svc.actions,
            a.noDisplay = false ∧ a.isSeparator = false ∧ r.key = a.name
            ∧ r.icon = a.icon
            ∧ r.label = (if svc.subMenuName.isEmpty then a.text
                else svc.subMenuName ++ ": " ++ a.text)
            ∧ r.checked = readShowEntry demoCfg.showGroup a.name true) :=
  C7_load_generic_services demoEnv demoCfg [] (by decide)

/-- A row of generic origin has its key among the generic candidate
keys. -/
theorem genericOrigin_key_mem (env : Env) (cfg : ConfigState) (r : ServiceRow)
    (h : genericOrigin env cfg r) : r.key ∈ genericKeys env := by
  unfold genericKeys
  rcases h with ⟨svc, hsvc, a, ha, _, _, hkey, _⟩ | ⟨p, hp, hkey, _⟩ | ⟨p, hp, hkey, _⟩
  · apply List.mem_append_left
    apply List.mem_append_left
    rw [hkey, List.mem_flatten]
    exact ⟨svc.actions.map (fun a => a.name),
      List.mem_map_of_mem _ hsvc, List.mem_map_of_mem _ ha⟩
  · apply List.mem_append_left
    apply List.mem_append_right
    rw [hkey]
    exact List.mem_map_of_mem _ hp
  · apply List.mem_append_right
    rw [hkey]
    exact List.mem_map_of_mem _ hp

/-- C8 counterexample: after a download-triggered reload, the delete
and copy/move synthetic rows and the version-control row are gone from
the collection, although they were present before the reload. -/
theorem C8_reload_counterexample :
    isInServicesList demoState.panel.rows DeleteService = true
    ∧ isInServicesList demoState.panel.rows
        (VersionControlServiceMarker ++ "Git") = true
    ∧ isInServicesList (reloadAfterDownload demoEnv ["entry"]
        demoState).panel.rows DeleteService = false
    ∧ isInServicesList (reloadAfterDownload demoEnv ["entry"]
        demoState).panel.rows CopyToMoveToService = false
    ∧ isInServicesList (reloadAfterDownload demoEnv ["entry"]
        demoState).panel.rows (VersionControlServiceMarker ++ "Git") = false := by
  refine ⟨by decide, by decide, by decide, by decide, by decide⟩

/-- C8 (amended): a reload after a non-empty download clears the whole
collection and re-runs only the generic-service loading; the
initialized flag, the configuration and the baseline snapshot are left
alone (so applySettings and restoreDefaults stay usable), but the
version-control rows and the two synthetic rows are not re-added: every
row after the reload is of the Generic category. -/
theorem C8_reload_behavior (env : Env) (ce : List String) (s : AppState)
    (hce : ce ≠ [])
    (hg : ∀ k ∈ genericKeys env,
      strStartsWith k VersionControlServiceMarker = false
      ∧ k ≠ DeleteService ∧ k ≠ CopyToMoveToService) :
    (reloadAfterDownload env ce s).panel.initialized = s.panel.initialized
    ∧ (reloadAfterDownload env ce s).cfg = s.cfg
    ∧ (reloadAfterDownload env ce s).panel.enabledVcsBaseline
        = s.panel.enabledVcsBaseline
    ∧ ∀ r ∈ (reloadAfterDownload env ce s).panel.rows,
        category r.key = Category.Generic := by
  have hf : ce.isEmpty = false := by
    cases ce
    · exact absurd rfl hce
    · rfl
  have hstep : reloadAfterDownload env ce s
      = { s with panel := { s.panel with rows := loadServices env s.cfg [] } } := by
    unfold reloadAfterDownload
    rw [if_neg (by rw [hf]; simp)]
  rw [hstep]
  refine ⟨rfl, rfl, rfl, ?_⟩
  intro r hr
  simp only at hr
  obtain ⟨new, hEq, horigin, _⟩ := loadServices_shape env s.cfg []
  rw [hEq, List.append_nil] at hr
  obtain ⟨h1, h2, h3⟩ := hg r.key (genericOrigin_key_mem env s.cfg r (horigin r hr))
  exact (category_generic_iff r.key).mpr ⟨h1, h2, h3⟩

/-- Witness for the amended C8 at the demo state. -/
theorem C8_reload_behavior_witness :
    (reloadAfterDownload demoEnv ["entry"] demoState).panel.initialized
        = demoState.panel.initialized
    ∧ (reloadAfterDownload demoEnv ["entry"] demoState).cfg = demoState.cfg
    ∧ (reloadAfterDownload demoEnv ["entry"] demoState).panel.enabledVcsBaseline
        = demoState.panel.enabledVcsBaseline
    ∧ ∀ r ∈ (reloadAfterDownload demoEnv ["entry"] demoState).panel.rows,
        category r.key = Category.Generic :=
  C8_reload_behavior demoEnv ["entry"] demoState (by decide) (by decide)

/-- Keys of version-control rows built over a name list. -/
theorem rowKeys_map_vcsRow (e : List String) (l : List String) :
    rowKeys (l.map (vcsRow e))
      = l.map (fun n => VersionControlServiceMarker ++ n) := by
  unfold rowKeys
  rw [List.map_map]
  rfl

/-- Unfolded row list of a freshly initialized page. -/
theorem initializePanel_rows (env : Env) (cfg : ConfigState) :
    (initializePanel env cfg).panel.rows
      = { icon := "edit-copy", label := "'Copy To' and 'Move To' commands"
          key := CopyToMoveToService, checked := cfg.showCopyMoveMenu }
        :: { icon := "edit-delete", label := "Delete", key := DeleteService
             checked := cfg.showDeleteCommand.getD ShowDeleteDefault }
        :: loadVersionControlSystems env cfg (loadServices env cfg []) := rfl

/-- Abstract uniqueness assembly: the two sentinel keys in front of
second-source vcs keys, first-source vcs keys and generic keys are
duplicate-free, given the parts are duplicate-free and disjoint in the
stated ways. -/
theorem nodup_sentinel_vcs_generic (V2 V1 GK : List String)
    (hV2 : V2.Nodup) (hV1 : V1.Nodup) (hGK : GK.Nodup)
    (hd21 : ∀ k ∈ V2, k ∉ V1)
    (hVmarker : ∀ k, (k ∈ V2 ∨ k ∈ V1) →
      strStartsWith k VersionControlServiceMarker = true)
    (hGKok : ∀ k ∈ GK, strStartsWith k VersionControlServiceMarker = false
        ∧ k ≠ DeleteService ∧ k ≠ CopyToMoveToService) :
    (CopyToMoveToService :: DeleteService :: (V2 ++ (V1 ++ GK))).Nodup := by
  have hnotV : ∀ s, strStartsWith s VersionControlServiceMarker = false →
      s ∉ V2 ∧ s ∉ V1 := by
    intro s hs
    constructor <;> intro hmem
    · have hv := hVmarker s (Or.inl hmem)
      rw [hs] at hv
      exact absurd hv (by simp)
    · have hv := hVmarker s (Or.inr hmem)
      rw [hs] at hv
      exact absurd hv (by simp)
  have hGk_sent : DeleteService ∉ GK ∧ CopyToMoveToService ∉ GK := by
    constructor <;> intro hmem
    · exact (hGKok _ hmem).2.1 rfl
    · exact (hGKok _ hmem).2.2 rfl
  refine List.nodup_cons.mpr ⟨?_, List.nodup_cons.mpr ⟨?_, ?_⟩⟩
  · intro h
    rcases List.mem_cons.mp h with h | h
    · exact copy_ne_delete h
    · rcases List.mem_append.mp h with h | h
      · exact (hnotV _ copyService_not_vcs).1 h
      · rcases List.mem_append.mp h with h | h
        · exact (hnotV _ copyService_not_vcs).2 h
        · exact hGk_sent.2 h
  · intro h
    rcases List.mem_append.mp h with h | h
    · exact (hnotV _ deleteService_not_vcs).1 h
    · rcases List.mem_append.mp h with h | h
      · exact (hnotV _ deleteService_not_vcs).2 h
      · exact hGk_sent.1 h
  · refine List.nodup_append.mpr ⟨hV2, List.nodup_append.mpr ⟨hV1, hGK, ?_⟩, ?_⟩
    · intro a ha hb
      have hv := hVmarker a (Or.inr ha)
      rw [(hGKok a hb).1] at hv
      exact absurd hv (by simp)
    · intro a ha hb
      rcases List.mem_append.mp hb with h | h
      · exact hd21 a ha h
      · have hv := hVmarker a (Or.inl ha)
        rw [(hGKok a h).1] at hv
        exact absurd hv (by simp)

/-- C3 counterexample: a single version-control source listing the same
plugin name twice yields two rows with the same key after initialize, so
keys are not unique across the collection. -/
theorem C3_unique_counterexample :
    ¬ (rowKeys (initializePanel dupVcsEnv demoCfg).panel.rows).Nodup := by
  decide

/-- C3 (amended): after initialize, all keys are unique across the
collection — the three deduplicated generic sources, the two synthetic
sentinel rows and the version-control rows — provided the plugin names
within each version-control source are themselves duplicate-free (the
code never deduplicates inside one source) and the generic candidate
keys avoid the reserved marker and the two sentinel keys. -/
theorem C3_unique_keys (env : Env) (cfg : ConfigState)
    (h1 : env.vcsPlugins.Nodup) (h2 : env.vcsServices.Nodup)
    (hg : ∀ k ∈ genericKeys env,
      strStartsWith k VersionControlServiceMarker = false
      ∧ k ≠ DeleteService ∧ k ≠ CopyToMoveToService) :
    (rowKeys (initializePanel env cfg).panel.rows).Nodup := by
  obtain ⟨gen, hgenEq, hgenOrigin, hgenNodup⟩ := loadServices_shape env cfg []
  have hgen0 : loadServices env cfg [] = gen := by
    rw [hgenEq, List.append_nil]
  have hGN : (rowKeys gen).Nodup := by
    have h := hgenNodup (by simp [rowKeys])
    rw [List.append_nil] at h
    exact h
  have hGK : ∀ k ∈ rowKeys gen, k ∈ genericKeys env := by
    intro k hk
    obtain ⟨r, hr, hkey⟩ := List.mem_map.mp hk
    rw [← hkey]
    exact genericOrigin_key_mem env cfg r (hgenOrigin r hr)
  have hInjM : Function.Injective
      (fun n => VersionControlServiceMarker ++ n) := by
    intro a b h
    exact append_left_inj _ h
  have hkeys : rowKeys (initializePanel env cfg).panel.rows
      = CopyToMoveToService :: DeleteService
        :: (((env.vcsServices.filter (fun n => !(env.vcsPlugins.contains n))).map
              (fun n => VersionControlServiceMarker ++ n)).reverse
            ++ ((env.vcsPlugins.map
                  (fun n => VersionControlServiceMarker ++ n)).reverse
              ++ rowKeys gen)) := by
    rw [initializePanel_rows, hgen0, loadVersionControlSystems_eq]
    rw [show ∀ (a b : ServiceRow) (l : List ServiceRow),
        rowKeys (a :: b :: l) = a.key :: b.key :: rowKeys l
      from fun _ _ _ => rfl]
    rw [rowKeys_append, rowKeys_append, rowKeys_reverse, rowKeys_reverse,
      rowKeys_map_vcsRow, rowKeys_map_vcsRow]
  rw [hkeys]
  apply nodup_sentinel_vcs_generic
  · exact List.nodup_reverse.mpr (List.Nodup.map hInjM (h2.filter _))
  · exact List.nodup_reverse.mpr (List.Nodup.map hInjM h1)
  · exact hGN
  · intro k hk hk1
    rw [List.mem_reverse] at hk hk1
    obtain ⟨m, hm, hmk⟩ := List.mem_map.mp hk
    obtain ⟨n, hn, hnk⟩ := List.mem_map.mp hk1
    have hmn : m = n := hInjM (by
      show VersionControlServiceMarker ++ m = VersionControlServiceMarker ++ n
      rw [hmk, hnk])
    have hmfilt := List.mem_filter.mp hm
    have hcf : env.vcsPlugins.contains m = false := by
      rcases hq : env.vcsPlugins.contains m with _ | _
      · rfl
      · have h' := hmfilt.2
        rw [hq] at h'
        exact absurd h' (by simp)
    rw [hmn] at hcf
    have hcf' : List.elem n env.vcsPlugins = false := hcf
    exact absurd (List.elem_iff.mpr hn) (by rw [hcf']; simp)
  · intro k hk
    rcases hk with h | h <;> rw [List.mem_reverse] at h <;>
      obtain ⟨n, hn, hnk⟩ := List.mem_map.mp h <;>
      rw [← hnk] <;> exact strStartsWith_marker_append n
  · intro k hk
    exact hg k (hGK k hk)

/-- Witness for the amended C3 at the demo environment. -/
theorem C3_unique_keys_witness :
    (rowKeys (initializePanel demoEnv demoCfg).panel.rows).Nodup :=
  C3_unique_keys demoEnv demoCfg (by decide) (by decide) (by decide)

end Dolphin
